import Mathlib

/-!
# Verification of the agri-connect recommendation service

Shallow embedding of `packages/ml/app/api/recommend.py`.

Modelling conventions:
* Python floats are modelled as `ℚ` (all arithmetic in the file is exact
  on the inputs of interest).
* Python `dict`s (which preserve insertion order) are modelled as
  association lists with `dictGet` / `dictSet` / `dictDel` mirroring
  `d[k]`, `d[k] = v` and `del d[k]`.
* Python's stable `sorted` (and NumPy's `argsort`, whose tie order is
  unspecified) are modelled by `List.insertionSort`, which is stable.
* Python `set`s are modelled as duplicate-free lists; only membership in
  them is ever relevant to the claims.
* The database (`app/db.py`) is an input: `Db` records the result of
  `get_user_order_history` (product-id column, most recent first),
  `get_user_view_events` (product-id column) and the `order_items` rows
  (product id, quantity) over non-cancelled orders that feed
  `get_top_selling_products`.
* The trained models are inputs: the ALS model is its `similar_items`
  function, the TF-IDF data is the product-id column of `products_df`
  together with the cosine-similarity function of a user profile
  (determined by the profile's row indices) against each row.
-/

namespace AgriRec

/-- A recommendation tuple `(product_id, score, reasons)` as produced by the
scorers in `recommend.py`. -/
abbrev RecItem := String × ℚ × List String

/-! ## Python dict operations on association lists -/

/-- `d[k]` lookup: first binding of the key. -/
def dictGet {β : Type} : List (String × β) → String → Option β
  | [], _ => none
  | (k', v) :: m, k => if k' = k then some v else dictGet m k

/-- `d[k] = v`: overwrite in place if the key is present (Python dicts keep
the key's position), otherwise append at the end (insertion order). -/
def dictSet {β : Type} : List (String × β) → String → β → List (String × β)
  | [], k, v => [(k, v)]
  | (k', v') :: m, k, v =>
    if k' = k then (k, v) :: m else (k', v') :: dictSet m k v

/-- `del d[k]`: remove the first binding of the key. -/
def dictDel {β : Type} : List (String × β) → String → List (String × β)
  | [], _ => []
  | (k', v') :: m, k => if k' = k then m else (k', v') :: dictDel m k

/-! ## Python set operations on duplicate-free lists -/

/-- `s.add(x)`. -/
def setAdd (s : List String) (x : String) : List String :=
  if x ∈ s then s else s ++ [x]

/-- `s.update(l)`. -/
def setUnion (s : List String) (l : List String) : List String :=
  l.foldl setAdd s

/-! ## Decimal rendering of a natural number

`str(top_k)` inside the f-string cache key `f"{user_id}:{top_k}"`. -/

/-- Accumulator version of decimal rendering. -/
def natToStrGo (n : Nat) (acc : List Char) : List Char :=
  let d := Char.ofNat (48 + n % 10)
  if _h : n < 10 then d :: acc
  else natToStrGo (n / 10) (d :: acc)
  termination_by n
  decreasing_by
    exact Nat.div_lt_self (Nat.lt_of_lt_of_le (by norm_num) (Nat.le_of_not_lt _h)) (by norm_num)

/-- `str(n)` for a natural number. -/
def natToStr (n : Nat) : String := ⟨natToStrGo n []⟩

/-! ## The data model -/

/-- The trained ALS model, reduced to the one method the API uses:
`similar_items(item_idx, N)` returning `(similar_index, score)` pairs. -/
structure AlsModel where
  similarItems : Nat → Nat → List (Nat × ℚ)

/-- The TF-IDF artifact: the `id` column of `products_df` in row order and
the cosine similarity of the mean profile of a set of rows (given by their
indices) against each row. -/
structure TfidfData where
  products : List String
  sim : List Nat → Nat → ℚ

/-- `mappings.json`: `user_index`, `item_index`, `index_to_item`. -/
structure Mappings where
  userIndex : String → Option Nat
  itemIndex : String → Option Nat
  indexToItem : Nat → String

/-- The three module-level model globals `_als_model`, `_tfidf_data`,
`_mappings` (each `None` when not loaded). -/
structure ModelState where
  als : Option AlsModel
  tfidf : Option TfidfData
  mappings : Option Mappings

/-- The outcome of reading the three artifacts from disk during one
`load_models()` call: `none` means the file is missing or fails to parse
(either way the code stores `None`). -/
structure Artifacts where
  als : Option AlsModel
  tfidf : Option TfidfData
  mappings : Option Mappings

/-- The database as seen by the recommendation endpoints. -/
structure Db where
  orderHistory : String → List String
  viewEvents : String → List String
  orderItems : List (String × Nat)

/-- The module-level response model (`RecommendationResponse`). -/
structure Response where
  user_id : String
  items : List RecItem
  method : String

/-- The `_cache` dict: key `f"{user_id}:{top_k}"`, value
`(recommendations, timestamp)`. Timestamps are rationals (seconds). -/
abbrev Cache := List (String × (List RecItem × ℚ))

/-- `_cache_ttl = 3600`. -/
def cacheTtl : ℚ := 3600

/-- The f-string cache key `f"{user_id}:{top_k}"`. -/
def cacheKey (u : String) (k : Nat) : String := u ++ ":" ++ natToStr k

/-! ## Sort relations (Python's `sorted` is stable; so is `insertionSort`) -/

/-- `sorted(..., key=lambda x: x[1], reverse=True)` on recommendation
tuples: descending by score. -/
def byScoreDesc (a b : RecItem) : Prop := b.2.1 ≤ a.2.1

instance : DecidableRel byScoreDesc :=
  fun a b => inferInstanceAs (Decidable (b.2.1 ≤ a.2.1))

instance : IsTotal RecItem byScoreDesc := ⟨fun a b => le_total b.2.1 a.2.1⟩

instance : IsTrans RecItem byScoreDesc := ⟨fun _ _ _ h1 h2 => le_trans h2 h1⟩

/-- `sorted(_cache.items(), key=lambda x: x[1][1])`: ascending by
timestamp. -/
def byTsAsc (a b : String × (List RecItem × ℚ)) : Prop := a.2.2 ≤ b.2.2

instance : DecidableRel byTsAsc :=
  fun a b => inferInstanceAs (Decidable (a.2.2 ≤ b.2.2))

instance : IsTotal (String × (List RecItem × ℚ)) byTsAsc :=
  ⟨fun a b => le_total a.2.2 b.2.2⟩

instance : IsTrans (String × (List RecItem × ℚ)) byTsAsc :=
  ⟨fun _ _ _ h1 h2 => le_trans h1 h2⟩

/-- `ORDER BY total_sold DESC` on `(product_id, total_sold)` rows. -/
def byTotalDesc (a b : String × Nat) : Prop := b.2 ≤ a.2

instance : DecidableRel byTotalDesc :=
  fun a b => inferInstanceAs (Decidable (b.2 ≤ a.2))

instance : IsTotal (String × Nat) byTotalDesc := ⟨fun a b => Nat.le_total b.2 a.2⟩

instance : IsTrans (String × Nat) byTotalDesc := ⟨fun _ _ _ h1 h2 => le_trans h2 h1⟩

/-! ## `load_models` and `refresh` -/

/-- `load_models()`: each of the three globals is assigned independently
from its own artifact read; a missing or failing artifact stores `None`. -/
def load_models (a : Artifacts) : ModelState :=
  { als := a.als, tfidf := a.tfidf, mappings := a.mappings }

/-- `POST /recommendations/refresh`: clear the cache, then re-run
`load_models()`. Returns the new model state and the new cache. -/
def refresh_recommendations (_st : ModelState) (_c : Cache) (a : Artifacts) :
    ModelState × Cache :=
  (load_models a, [])

/-! ## Collaborative scorer -/

/-- The dedup-and-truncate loop at the end of
`get_collaborative_recommendations`: walk the sorted candidates, skip
already-seen product ids, and break as soon as the accumulated list
reaches `top_k` entries (`cnt` is the number accumulated so far). -/
def dedupTakeAux (topK : Nat) : List RecItem → List String → Nat → List RecItem
  | [], _, _ => []
  | r :: rest, seen, cnt =>
    if r.1 ∈ seen then dedupTakeAux topK rest seen cnt
    else if topK ≤ cnt + 1 then [r]
    else r :: dedupTakeAux topK rest (r.1 :: seen) (cnt + 1)

/-- The `recommended_items` accumulation loop of
`get_collaborative_recommendations`: for each of the user's top items that
is in the item index, take its similar items, map indices back to product
ids and drop already-purchased products. -/
def cfCandidates (als : AlsModel) (maps : Mappings) (purchased : List String)
    (topUserItems : List String) (topK : Nat) : List RecItem :=
  topUserItems.flatMap (fun itemId =>
    match maps.itemIndex itemId with
    | none => []
    | some itemIdx =>
      (als.similarItems itemIdx (topK + 10)).filterMap (fun p =>
        let pid := maps.indexToItem p.1
        if pid ∈ purchased then none
        else some (pid, p.2, ["cf"])))

/-- `get_collaborative_recommendations(user_id, top_k)`. -/
def get_collaborative_recommendations (st : ModelState) (db : Db)
    (u : String) (topK : Nat) : List RecItem :=
  match st.als, st.mappings with
  | some als, some maps =>
    match maps.userIndex u with
    | none => []
    | some _ =>
      let orders := db.orderHistory u
      let recommended := cfCandidates als maps orders (orders.take 5) topK
      dedupTakeAux topK (List.insertionSort byScoreDesc recommended) [] 0
  | _, _ => []

/-! ## Content-based scorer -/

/-- Indices of all rows, ordered by descending similarity
(`similarities.argsort()[::-1]`). -/
def argsortDesc (n : Nat) (f : Nat → ℚ) : List Nat :=
  List.insertionSort (fun i j => f j ≤ f i) (List.range n)

/-- The collection loop of `get_content_based_recommendations`: walk the
similarity-ordered row indices, skip rows whose product the user already
interacted with, and break as soon as `top_k` entries are collected. -/
def collectCB (prods : List String) (f : Nat → ℚ) (userProds : List String)
    (topK : Nat) : List Nat → Nat → List RecItem
  | [], _ => []
  | i :: rest, cnt =>
    let pid := prods.getD i ""
    if pid ∈ userProds then collectCB prods f userProds topK rest cnt
    else if topK ≤ cnt + 1 then [(pid, f i, ["cb"])]
    else (pid, f i, ["cb"]) :: collectCB prods f userProds topK rest (cnt + 1)

/-- `get_content_based_recommendations(user_id, top_k)`. -/
def get_content_based_recommendations (st : ModelState) (db : Db)
    (u : String) (topK : Nat) : List RecItem :=
  match st.tfidf with
  | none => []
  | some tf =>
    let userProducts := (db.orderHistory u ++ db.viewEvents u).dedup
    if userProducts.isEmpty then []
    else
      let idxs := userProducts.filterMap
        (fun p => tf.products.findIdx? (fun q => q == p))
      if idxs.isEmpty then []
      else
        let f := tf.sim idxs
        collectCB tf.products f userProducts topK
          (argsortDesc tf.products.length f) 0

/-! ## Hybrid blender -/

/-- The two combination loops of `get_hybrid_recommendations` over the
`combined_scores` / `combined_reasons` dicts (modelled as one dict whose
value is the pair). -/
def hybridCombine (cf cb : List RecItem) (cfW cbW : ℚ) : List RecItem :=
  let m1 := cf.foldl (fun m r => dictSet m r.1 (r.2.1 * cfW, r.2.2.dedup)) []
  cb.foldl (fun m r =>
    match dictGet m r.1 with
    | some sr => dictSet m r.1 (sr.1 + r.2.1 * cbW, setAdd (setUnion sr.2 r.2.2) "hybrid")
    | none => dictSet m r.1 (r.2.1 * cbW, r.2.2.dedup)) m1

/-- `get_hybrid_recommendations(user_id, top_k, cf_weight=0.7, cb_weight=0.3)`. -/
def get_hybrid_recommendations (st : ModelState) (db : Db) (u : String)
    (topK : Nat) (cfW : ℚ := 7/10) (cbW : ℚ := 3/10) : List RecItem :=
  let cf := get_collaborative_recommendations st db u (topK * 2)
  let cb := get_content_based_recommendations st db u (topK * 2)
  let m := hybridCombine cf cb cfW cbW
  (List.insertionSort byScoreDesc m).take topK

/-! ## Cold-start scorer -/

/-- `db.get_top_selling_products(limit)`: group the order-item rows by
product, sum quantities, order by total sold descending, truncate. -/
def get_top_selling_products (rows : List (String × Nat)) (limit : Nat) :
    List String :=
  let keys := (rows.map Prod.fst).dedup
  let totals := keys.map (fun k => (k, ((rows.filter (fun r => r.1 == k)).map Prod.snd).sum))
  ((List.insertionSort byTotalDesc totals).take limit).map Prod.fst

/-- `get_cold_start_recommendations(user_id, top_k)`. -/
def get_cold_start_recommendations (db : Db) (topK : Nat) : List RecItem :=
  let tops := get_top_selling_products db.orderItems topK
  tops.enum.map (fun p => (p.2, 1 - ((p.1 : ℚ) / (tops.length : ℚ)) * (1/2), ["popular"]))

/-! ## Cache -/

/-- `get_cached_recommendations(user_id, top_k)`: returns the cached list
when present and younger than the TTL; deletes a present-but-expired
entry. Also returns the cache after the read. -/
def get_cached_recommendations (c : Cache) (now : ℚ) (u : String) (k : Nat) :
    Option (List RecItem) × Cache :=
  match dictGet c (cacheKey u k) with
  | some dt =>
    if now - dt.2 < cacheTtl then (some dt.1, c)
    else (none, dictDel c (cacheKey u k))
  | none => (none, c)

/-- `set_cached_recommendations(user_id, top_k, recommendations)`: insert
or overwrite with the current timestamp; when the cache then holds more
than 1000 entries, delete the 200 entries oldest by timestamp. -/
def set_cached_recommendations (c : Cache) (now : ℚ) (u : String) (k : Nat)
    (recs : List RecItem) : Cache :=
  let c1 := dictSet c (cacheKey u k) (recs, now)
  if 1000 < c1.length then
    ((List.insertionSort byTsAsc c1).take 200).foldl (fun m kv => dictDel m kv.1) c1
  else c1

/-! ## The endpoint -/

/-- The cache-miss compute phase of `get_user_recommendations`: hybrid with
single-model fallback for users with history, cold start otherwise, final
popularity fallback when everything came back empty. Returns the
recommendation list together with the `method` string. -/
def computeRecs (st : ModelState) (db : Db) (u : String) (topK : Nat) :
    List RecItem × String :=
  let orders := db.orderHistory u
  let views := db.viewEvents u
  let rm :=
    if orders.isEmpty && views.isEmpty then
      (get_cold_start_recommendations db topK, "popular (cold-start)")
    else
      let recommendations := get_hybrid_recommendations st db u topK
      if recommendations.length < topK / 2 then
        let cf := get_collaborative_recommendations st db u topK
        let cb := get_content_based_recommendations st db u topK
        if cf.isEmpty then
          if cb.isEmpty then (recommendations, "hybrid")
          else (cb, "content-based")
        else (cf, "collaborative")
      else (recommendations, "hybrid")
  if rm.1.isEmpty then (get_cold_start_recommendations db topK, "popular (fallback)")
  else rm

/-- `GET /recommendations/user/{user_id}?top_k=k` (`get_user_recommendations`):
serve from cache when possible, otherwise compute, cache and return.
Returns the response and the cache after the request. -/
def get_user_recommendations (st : ModelState) (db : Db) (c : Cache)
    (now : ℚ) (u : String) (topK : Nat) : Response × Cache :=
  match get_cached_recommendations c now u topK with
  | (some cached, c') =>
    ({ user_id := u, items := cached, method := "hybrid (cached)" }, c')
  | (none, c') =>
    let rm2 := computeRecs st db u topK
    let c2 := set_cached_recommendations c' now u topK rm2.1
    ({ user_id := u, items := rm2.1, method := rm2.2 }, c2)

/-! ## Invariants named by the specification -/

/-- A `RecommendationList` valid for a request of size `k`: at most `k`
items, pairwise-distinct product ids. -/
def GoodList (k : Nat) (l : List RecItem) : Prop :=
  l.length ≤ k ∧ (l.map Prod.fst).Nodup

/-- Every cache entry stored under a key built from `(u, k)` holds a list
valid for `k`. -/
def CacheInv (c : Cache) : Prop :=
  ∀ e ∈ c, ∀ (u : String) (k : Nat), e.1 = cacheKey u k → GoodList k e.2.1

/-- The product-id column of the TF-IDF frame has no duplicates (product
ids are primary keys in the catalogue). -/
def ProductsOk (st : ModelState) : Prop :=
  ∀ tf, st.tfidf = some tf → tf.products.Nodup

/-! ## Concrete instances used to exercise the theorems -/

/-- A tiny catalogue: user `u` bought `h`; the ALS model finds item 1
(product `A`, collaborative score 0.8) similar; the TF-IDF frame holds
rows `h, A` with content score 0.6 for `A`. -/
def maps1 : Mappings :=
  ⟨fun s => if s = "u" then some 0 else none,
   fun s => if s = "h" then some 0 else none,
   fun n => if n = 0 then "h" else "A"⟩

def als1 : AlsModel := ⟨fun _ _ => [(1, 8/10)]⟩

def tf1 : TfidfData := ⟨["h", "A"], fun _ i => if i = 0 then 1 else 6/10⟩

def db1 : Db := ⟨fun _ => ["h"], fun _ => [], [("h", 1)]⟩

def st1 : ModelState := ⟨some als1, some tf1, some maps1⟩

/-- Model state whose three slots are all loaded. -/
def als0 : AlsModel := ⟨fun _ _ => []⟩

def tf0 : TfidfData := ⟨[], fun _ _ => 0⟩

def tf0' : TfidfData := ⟨["x"], fun _ _ => 0⟩

def maps0 : Mappings := ⟨fun _ => none, fun _ => none, fun _ => ""⟩

def stOld : ModelState := ⟨some als0, some tf0, some maps0⟩

/-- An artifact read where the ALS file fails to load but the (new) TF-IDF
artifact and the mappings read fine. -/
def artsFail : Artifacts := ⟨none, some tf0', some maps0⟩

/-- User `u` bought `p`; the collaborative scorer yields one candidate
(`q`) while the content scorer yields two (`A`, `B`). -/
def maps3 : Mappings :=
  ⟨fun s => if s = "u" then some 0 else none,
   fun s => if s = "p" then some 0 else none,
   fun n => if n = 0 then "p" else "q"⟩

def als3 : AlsModel := ⟨fun _ _ => [(1, 9/10)]⟩

def tf3 : TfidfData :=
  ⟨["p", "A", "B"], fun _ i => if i = 0 then 1 else if i = 1 then 8/10 else 7/10⟩

def db3 : Db := ⟨fun _ => ["p"], fun _ => [], [("p", 1)]⟩

def st3 : ModelState := ⟨some als3, some tf3, some maps3⟩

/-- User `u` bought `p` and viewed `v`; the ALS model proposes `v`. -/
def maps7 : Mappings :=
  ⟨fun s => if s = "u" then some 0 else none,
   fun s => if s = "p" then some 0 else none,
   fun n => if n = 0 then "p" else "v"⟩

def als7 : AlsModel := ⟨fun _ _ => [(1, 9/10)]⟩

def db7 : Db := ⟨fun _ => ["p"], fun _ => ["v"], [("p", 1)]⟩

def st7 : ModelState := ⟨some als7, none, some maps7⟩

/-- Four products with sales totals 4 > 3 > 2 > 1. -/
def db8 : Db := ⟨fun _ => [], fun _ => [], [("a", 4), ("b", 3), ("c", 2), ("d", 1)]⟩

/-- A user with no history over a catalogue with one sold product. -/
def db9 : Db := ⟨fun _ => [], fun _ => [], [("p", 2)]⟩

/-- An empty database. -/
def db10 : Db := ⟨fun _ => [], fun _ => [], []⟩

/-- An expired cache entry for `(u, 2)` created at time 0. -/
def cacheC6 : Cache := [(cacheKey "u" 2, ([("p", 1, ["popular"])], 0))]

/-! ## Lemmas about the dict model -/

theorem dictGet_dictSet_self {β : Type} (m : List (String × β)) (k : String) (v : β) :
    dictGet (dictSet m k v) k = some v := by
  induction m with
  | nil => simp [dictGet, dictSet]
  | cons e m ih =>
    by_cases h : e.1 = k
    · simp [dictSet, h, dictGet]
    · simp [dictSet, h, dictGet, ih]

theorem dictGet_dictSet_ne {β : Type} (m : List (String × β)) (k k' : String) (v : β)
    (h : k' ≠ k) : dictGet (dictSet m k v) k' = dictGet m k' := by
  have h' : ¬ k = k' := fun e => h e.symm
  induction m with
  | nil => simp [dictGet, dictSet, h']
  | cons e m ih =>
    by_cases he : e.1 = k
    · have he' : ¬ e.1 = k' := by rw [he]; exact h'
      simp only [dictSet, if_pos he, dictGet, if_neg h', if_neg he']
    · simp only [dictSet, if_neg he, dictGet, ih]

theorem mem_dictSet {β : Type} {m : List (String × β)} {k : String} {v : β}
    {e : String × β} (h : e ∈ dictSet m k v) : e ∈ m ∨ e = (k, v) := by
  induction m with
  | nil => simp [dictSet] at h; simp [h]
  | cons e' m ih =>
    by_cases he : e'.1 = k
    · simp [dictSet, he] at h
      rcases h with h | h
      · right; exact h
      · left; simp [h]
    · simp [dictSet, he] at h
      rcases h with h | h
      · left; simp [h]
      · rcases ih h with h' | h'
        · left; simp [h']
        · right; exact h'

theorem mem_dictDel {β : Type} {m : List (String × β)} {k : String}
    {e : String × β} (h : e ∈ dictDel m k) : e ∈ m := by
  induction m with
  | nil => simp [dictDel] at h
  | cons e' m ih =>
    by_cases he : e'.1 = k
    · simp [dictDel, he] at h
      simp [h]
    · simp [dictDel, he] at h
      rcases h with h | h
      · simp [h]
      · simp [ih h]

theorem dictGet_mem {β : Type} {m : List (String × β)} {k : String} {v : β}
    (h : dictGet m k = some v) : (k, v) ∈ m := by
  induction m with
  | nil => simp [dictGet] at h
  | cons e m ih =>
    by_cases he : e.1 = k
    · simp [dictGet, he] at h
      simp [← he, ← h]
    · simp [dictGet, he] at h
      simp [ih h]

theorem dictGet_eq_none {β : Type} {m : List (String × β)} {k : String} :
    dictGet m k = none ↔ k ∉ m.map Prod.fst := by
  induction m with
  | nil => simp [dictGet]
  | cons e m ih =>
    by_cases he : e.1 = k
    · simp [dictGet, he]
    · have he' : ¬ k = e.1 := fun hh => he hh.symm
      simp only [dictGet, if_neg he, ih, List.map_cons, List.mem_cons]
      constructor
      · intro hn hor
        rcases hor with hor | hor
        · exact he' hor
        · exact hn hor
      · intro hn hm
        exact hn (Or.inr hm)

theorem keys_dictSet {β : Type} (m : List (String × β)) (k : String) (v : β) :
    (dictSet m k v).map Prod.fst =
      if k ∈ m.map Prod.fst then m.map Prod.fst else m.map Prod.fst ++ [k] := by
  induction m with
  | nil => simp [dictSet]
  | cons e m ih =>
    by_cases he : e.1 = k
    · simp [dictSet, he]
    · have he' : ¬ k = e.1 := fun hh => he hh.symm
      simp only [dictSet, if_neg he, List.map_cons, ih]
      by_cases hk : k ∈ m.map Prod.fst
      · simp [hk, he']
      · simp [hk, he']

theorem keys_dictSet_nodup {β : Type} {m : List (String × β)} (k : String) (v : β)
    (h : (m.map Prod.fst).Nodup) : ((dictSet m k v).map Prod.fst).Nodup := by
  rw [keys_dictSet]
  by_cases hk : k ∈ m.map Prod.fst
  · simpa [hk] using h
  · simp only [if_neg hk]
    exact List.Nodup.append h (List.nodup_singleton k) (by simpa using hk)

theorem dictDel_eq_filter {β : Type} {m : List (String × β)} (k : String)
    (h : (m.map Prod.fst).Nodup) :
    dictDel m k = m.filter (fun e => !(e.1 == k)) := by
  induction m with
  | nil => simp [dictDel]
  | cons e m ih =>
    simp only [List.map_cons, List.nodup_cons] at h
    by_cases he : e.1 = k
    · have hfil : List.filter (fun e' => !(e'.1 == k)) m = m := by
        apply List.filter_eq_self.2
        intro a ha
        simp only [Bool.not_eq_true', beq_eq_false_iff_ne, ne_eq]
        intro hk
        have hmem : a.1 ∈ m.map Prod.fst := List.mem_map_of_mem Prod.fst ha
        rw [hk, ← he] at hmem
        exact h.1 hmem
      rw [dictDel, if_pos he, List.filter_cons]
      simp only [he, beq_self_eq_true, Bool.not_true, Bool.false_eq_true, if_false, hfil]
    · rw [dictDel, if_neg he, ih h.2, List.filter_cons]
      simp [he]

/-- The eviction fold deletes exactly the listed keys, when the dict has
duplicate-free keys. -/
theorem foldl_dictDel_eq_filter {β : Type} (ks : List String) :
    ∀ (m : List (String × β)), (m.map Prod.fst).Nodup →
      ks.foldl (fun m k => dictDel m k) m = m.filter (fun e => !(e.1 ∈ ks)) := by
  induction ks with
  | nil => intro m _; simp
  | cons k ks ih =>
    intro m hm
    have hdel : dictDel m k = m.filter (fun e => !(e.1 == k)) := dictDel_eq_filter k hm
    have hkeys : ((dictDel m k).map Prod.fst).Nodup := by
      rw [hdel]
      exact List.Nodup.sublist (List.Sublist.map Prod.fst (List.filter_sublist m)) hm
    rw [List.foldl_cons, ih _ hkeys, hdel, List.filter_filter]
    apply List.filter_congr
    intro e _
    by_cases h1 : e.1 = k <;> by_cases h2 : e.1 ∈ ks <;> simp [h1, h2]

/-! ## Decimal rendering: characters and injectivity -/

theorem natToStrGo_step_small (n : Nat) (acc : List Char) (h : n < 10) :
    natToStrGo n acc = Char.ofNat (48 + n % 10) :: acc := by
  rw [natToStrGo]; simp [h]

theorem natToStrGo_step_big (n : Nat) (acc : List Char) (h : ¬ n < 10) :
    natToStrGo n acc = natToStrGo (n / 10) (Char.ofNat (48 + n % 10) :: acc) := by
  rw [natToStrGo]; simp [h]

theorem natToStrGo_append (n : Nat) : ∀ acc, natToStrGo n acc = natToStrGo n [] ++ acc := by
  induction n using Nat.strong_induction_on with
  | _ n ih =>
    intro acc
    by_cases h : n < 10
    · rw [natToStrGo_step_small n acc h, natToStrGo_step_small n [] h]
      simp
    · have hlt : n / 10 < n :=
        Nat.div_lt_self (Nat.lt_of_lt_of_le (by norm_num) (Nat.le_of_not_lt h)) (by norm_num)
      rw [natToStrGo_step_big n acc h, natToStrGo_step_big n [] h,
        ih (n / 10) hlt (Char.ofNat (48 + n % 10) :: acc),
        ih (n / 10) hlt (Char.ofNat (48 + n % 10) :: [])]
      simp

theorem natToStrGo_ne_nil (n : Nat) (acc : List Char) : natToStrGo n acc ≠ [] := by
  by_cases h : n < 10
  · rw [natToStrGo_step_small n acc h]
    simp
  · rw [natToStrGo_step_big n acc h, natToStrGo_append]
    simp

theorem digit_ne_colon (m : Nat) (h : m < 10) : Char.ofNat (48 + m) ≠ ':' := by
  interval_cases m <;> decide

theorem digit_inj (a b : Nat) (ha : a < 10) (hb : b < 10)
    (h : Char.ofNat (48 + a) = Char.ofNat (48 + b)) : a = b := by
  revert h
  interval_cases a <;> interval_cases b <;> decide

theorem colon_not_mem_natToStrGo (n : Nat) : ∀ acc, ':' ∈ natToStrGo n acc → ':' ∈ acc := by
  induction n using Nat.strong_induction_on with
  | _ n ih =>
    intro acc hmem
    by_cases h : n < 10
    · rw [natToStrGo_step_small n acc h] at hmem
      rcases List.mem_cons.1 hmem with hmem | hmem
      · exact absurd hmem.symm (digit_ne_colon (n % 10) (Nat.mod_lt n (by omega)))
      · exact hmem
    · have hlt : n / 10 < n :=
        Nat.div_lt_self (Nat.lt_of_lt_of_le (by norm_num) (Nat.le_of_not_lt h)) (by norm_num)
      rw [natToStrGo_step_big n acc h] at hmem
      have := ih (n / 10) hlt _ hmem
      rcases List.mem_cons.1 this with this | this
      · exact absurd this.symm (digit_ne_colon (n % 10) (Nat.mod_lt n (by omega)))
      · exact this

theorem natToStrGo_small (n : Nat) (h : n < 10) :
    natToStrGo n [] = [Char.ofNat (48 + n % 10)] :=
  natToStrGo_step_small n [] h

theorem natToStrGo_big (n : Nat) (h : ¬ n < 10) :
    natToStrGo n [] = natToStrGo (n / 10) [] ++ [Char.ofNat (48 + n % 10)] := by
  rw [natToStrGo_step_big n [] h, natToStrGo_append]

theorem natToStrGo_inj (a : Nat) : ∀ b, natToStrGo a [] = natToStrGo b [] → a = b := by
  induction a using Nat.strong_induction_on with
  | _ a ih =>
    intro b h
    by_cases ha : a < 10 <;> by_cases hb : b < 10
    · rw [natToStrGo_small a ha, natToStrGo_small b hb] at h
      simp only [List.cons.injEq, and_true] at h
      have := digit_inj _ _ (Nat.mod_lt a (by norm_num)) (Nat.mod_lt b (by norm_num)) h
      omega
    · rw [natToStrGo_small a ha, natToStrGo_big b hb] at h
      have hlen := congrArg List.length h
      have hne := natToStrGo_ne_nil (b / 10) ([] : List Char)
      cases hgo : natToStrGo (b / 10) ([] : List Char) with
      | nil => exact absurd hgo hne
      | cons c l =>
        rw [hgo] at hlen
        simp only [List.length_cons, List.length_append, List.length_singleton] at hlen
        omega
    · rw [natToStrGo_big a ha, natToStrGo_small b hb] at h
      have hlen := congrArg List.length h
      have hne := natToStrGo_ne_nil (a / 10) ([] : List Char)
      cases hgo : natToStrGo (a / 10) ([] : List Char) with
      | nil => exact absurd hgo hne
      | cons c l =>
        rw [hgo] at hlen
        simp only [List.length_cons, List.length_append, List.length_singleton] at hlen
        omega
    · rw [natToStrGo_big a ha, natToStrGo_big b hb] at h
      have h' := congrArg List.reverse h
      simp only [List.reverse_append, List.reverse_singleton, List.singleton_append,
        List.cons.injEq] at h'
      have hd := digit_inj _ _ (Nat.mod_lt a (by norm_num)) (Nat.mod_lt b (by norm_num)) h'.1
      have hrev := congrArg List.reverse h'.2
      simp only [List.reverse_reverse] at hrev
      have hlt : a / 10 < a :=
        Nat.div_lt_self (Nat.lt_of_lt_of_le (by norm_num) (Nat.le_of_not_lt ha)) (by norm_num)
      have := ih (a / 10) hlt (b / 10) hrev
      omega

/-- If an element occurs in neither prefix, the split at its first
occurrence is unique. -/
theorem append_cons_inj {α : Type} (x : α) :
    ∀ (l1 l2 r1 r2 : List α), x ∉ l1 → x ∉ l2 →
      l1 ++ x :: r1 = l2 ++ x :: r2 → l1 = l2 ∧ r1 = r2 := by
  intro l1
  induction l1 with
  | nil =>
    intro l2 r1 r2 _ h2 h
    cases l2 with
    | nil => simpa using h
    | cons b l2 =>
      simp only [List.nil_append, List.cons_append, List.cons.injEq] at h
      exact absurd (h.1 ▸ List.mem_cons_self b l2) h2
  | cons a l1 ih =>
    intro l2 r1 r2 h1 h2 h
    cases l2 with
    | nil =>
      simp only [List.cons_append, List.nil_append, List.cons.injEq] at h
      exact absurd (h.1 ▸ List.mem_cons_self a l1) h1
    | cons b l2 =>
      simp only [List.cons_append, List.cons.injEq] at h
      have := ih l2 r1 r2 (fun hm => h1 (List.mem_cons_of_mem a hm))
        (fun hm => h2 (List.mem_cons_of_mem b hm)) h.2
      exact ⟨by rw [h.1, this.1], this.2⟩

/-- The `top_k` component can be recovered from the f-string cache key:
two keys built from different `k` are different strings. -/
theorem cacheKey_inj_k (u1 u2 : String) (k1 k2 : Nat)
    (h : cacheKey u1 k1 = cacheKey u2 k2) : k1 = k2 := by
  have hdata := congrArg String.data h
  simp only [cacheKey, String.data_append] at hdata
  have hdata' : u1.data ++ ':' :: (natToStr k1).data =
      u2.data ++ ':' :: (natToStr k2).data := by
    simpa [List.append_assoc] using hdata
  have hrev := congrArg List.reverse hdata'
  simp only [List.reverse_append, List.reverse_cons] at hrev
  have hrev' : (natToStr k1).data.reverse ++ ':' :: u1.data.reverse =
      (natToStr k2).data.reverse ++ ':' :: u2.data.reverse := by
    simpa [List.append_assoc] using hrev
  have hnc1 : ':' ∉ (natToStr k1).data.reverse := by
    rw [List.mem_reverse]
    intro hm
    simpa using colon_not_mem_natToStrGo k1 [] hm
  have hnc2 : ':' ∉ (natToStr k2).data.reverse := by
    rw [List.mem_reverse]
    intro hm
    simpa using colon_not_mem_natToStrGo k2 [] hm
  have := append_cons_inj ':' _ _ _ _ hnc1 hnc2 hrev'
  have hd : (natToStr k1).data = (natToStr k2).data := by
    have := congrArg List.reverse this.1
    simpa using this
  exact natToStrGo_inj k1 k2 hd

/-! ## Lemmas about the collaborative scorer -/

theorem mem_dedupTakeAux (topK : Nat) :
    ∀ (l : List RecItem) (seen : List String) (cnt : Nat) (r : RecItem),
      r ∈ dedupTakeAux topK l seen cnt → r ∈ l := by
  intro l
  induction l with
  | nil => intro seen cnt r h; simp [dedupTakeAux] at h
  | cons a l ih =>
    intro seen cnt r h
    rw [dedupTakeAux] at h
    by_cases h1 : a.1 ∈ seen
    · rw [if_pos h1] at h
      exact List.mem_cons_of_mem a (ih seen cnt r h)
    · rw [if_neg h1] at h
      by_cases h2 : topK ≤ cnt + 1
      · rw [if_pos h2] at h
        simp only [List.mem_singleton] at h
        simp [h]
      · rw [if_neg h2] at h
        rcases List.mem_cons.1 h with h | h
        · simp [h]
        · exact List.mem_cons_of_mem a (ih _ _ r h)

theorem dedupTakeAux_nodup (topK : Nat) :
    ∀ (l : List RecItem) (seen : List String) (cnt : Nat),
      ((dedupTakeAux topK l seen cnt).map Prod.fst).Nodup ∧
        ∀ p ∈ (dedupTakeAux topK l seen cnt).map Prod.fst, p ∉ seen := by
  intro l
  induction l with
  | nil => intro seen cnt; simp [dedupTakeAux]
  | cons a l ih =>
    intro seen cnt
    rw [dedupTakeAux]
    by_cases h1 : a.1 ∈ seen
    · rw [if_pos h1]; exact ih seen cnt
    · rw [if_neg h1]
      by_cases h2 : topK ≤ cnt + 1
      · rw [if_pos h2]
        refine ⟨by simp, ?_⟩
        intro p hp
        simp only [List.map_cons, List.map_nil, List.mem_singleton] at hp
        rw [hp]
        exact h1
      · rw [if_neg h2]
        have ihh := ih (a.1 :: seen) (cnt + 1)
        refine ⟨?_, ?_⟩
        · simp only [List.map_cons, List.nodup_cons]
          exact ⟨fun hmem => (ihh.2 a.1 hmem) (List.mem_cons_self _ _), ihh.1⟩
        · intro p hp
          simp only [List.map_cons, List.mem_cons] at hp
          rcases hp with hp | hp
          · rw [hp]; exact h1
          · exact fun hpseen => (ihh.2 p hp) (List.mem_cons_of_mem _ hpseen)

theorem dedupTakeAux_length (topK : Nat) :
    ∀ (l : List RecItem) (seen : List String) (cnt : Nat), cnt < topK →
      (dedupTakeAux topK l seen cnt).length ≤ topK - cnt := by
  intro l
  induction l with
  | nil => intro seen cnt _; simp [dedupTakeAux]
  | cons a l ih =>
    intro seen cnt hcnt
    rw [dedupTakeAux]
    by_cases h1 : a.1 ∈ seen
    · rw [if_pos h1]; exact ih seen cnt hcnt
    · rw [if_neg h1]
      by_cases h2 : topK ≤ cnt + 1
      · rw [if_pos h2]
        simp only [List.length_singleton]
        omega
      · rw [if_neg h2]
        have := ih (a.1 :: seen) (cnt + 1) (by omega)
        simp only [List.length_cons]
        omega

theorem mem_cfCandidates {als : AlsModel} {maps : Mappings} {purchased : List String}
    {topUserItems : List String} {topK : Nat} {r : RecItem}
    (h : r ∈ cfCandidates als maps purchased topUserItems topK) :
    r.1 ∉ purchased ∧ r.2.2 = ["cf"] := by
  rw [cfCandidates, List.mem_flatMap] at h
  obtain ⟨itemId, _, hmem⟩ := h
  cases hidx : maps.itemIndex itemId with
  | none => rw [hidx] at hmem; simp at hmem
  | some itemIdx =>
    rw [hidx] at hmem
    rw [List.mem_filterMap] at hmem
    obtain ⟨p, _, hp⟩ := hmem
    by_cases hpur : maps.indexToItem p.1 ∈ purchased
    · simp only [if_pos hpur] at hp
      exact absurd hp (by simp)
    · simp only [if_neg hpur] at hp
      cases hp
      exact ⟨hpur, rfl⟩

/-- No already-purchased product survives the collaborative scorer. -/
theorem cf_not_purchased (st : ModelState) (db : Db) (u : String) (topK : Nat)
    {p : String} (hp : p ∈ db.orderHistory u) :
    p ∉ (get_collaborative_recommendations st db u topK).map Prod.fst := by
  intro hmem
  obtain ⟨als?, tf?, maps?⟩ := st
  cases als? with
  | none => simp [get_collaborative_recommendations] at hmem
  | some als =>
    cases maps? with
    | none => simp [get_collaborative_recommendations] at hmem
    | some maps =>
      cases huser : maps.userIndex u with
      | none => simp [get_collaborative_recommendations, huser] at hmem
      | some uidx =>
        simp only [get_collaborative_recommendations, huser, List.mem_map] at hmem
        obtain ⟨r, hr, hrp⟩ := hmem
        have hr' := mem_dedupTakeAux _ _ _ _ _ hr
        rw [List.mem_insertionSort] at hr'
        have := (mem_cfCandidates hr').1
        rw [hrp] at this
        exact this hp

theorem cf_nodup (st : ModelState) (db : Db) (u : String) (topK : Nat) :
    ((get_collaborative_recommendations st db u topK).map Prod.fst).Nodup := by
  obtain ⟨als?, tf?, maps?⟩ := st
  cases als? with
  | none => simp [get_collaborative_recommendations]
  | some als =>
    cases maps? with
    | none => simp [get_collaborative_recommendations]
    | some maps =>
      cases huser : maps.userIndex u with
      | none => simp [get_collaborative_recommendations, huser]
      | some uidx =>
        simp only [get_collaborative_recommendations, huser]
        exact (dedupTakeAux_nodup topK _ [] 0).1

theorem cf_length (st : ModelState) (db : Db) (u : String) (topK : Nat)
    (hk : 1 ≤ topK) :
    (get_collaborative_recommendations st db u topK).length ≤ topK := by
  obtain ⟨als?, tf?, maps?⟩ := st
  cases als? with
  | none => simp [get_collaborative_recommendations]
  | some als =>
    cases maps? with
    | none => simp [get_collaborative_recommendations]
    | some maps =>
      cases huser : maps.userIndex u with
      | none => simp [get_collaborative_recommendations, huser]
      | some uidx =>
        simp only [get_collaborative_recommendations, huser]
        refine le_trans (dedupTakeAux_length topK _ [] 0 (by omega)) ?_
        omega

/-! ## Lemmas about the content-based scorer -/

theorem argsortDesc_nodup (n : Nat) (f : Nat → ℚ) : (argsortDesc n f).Nodup :=
  (List.perm_insertionSort _ _).nodup_iff.mpr (List.nodup_range n)

theorem argsortDesc_lt {n : Nat} {f : Nat → ℚ} {i : Nat} (h : i ∈ argsortDesc n f) :
    i < n := by
  rw [argsortDesc, List.mem_insertionSort, List.mem_range] at h
  exact h

theorem getD_inj {l : List String} (h : l.Nodup) {i j : Nat}
    (hi : i < l.length) (hj : j < l.length) (he : l.getD i "" = l.getD j "") :
    i = j := by
  rw [List.getD_eq_getElem l "" hi, List.getD_eq_getElem l "" hj] at he
  have h2 : l.get ⟨i, hi⟩ = l.get ⟨j, hj⟩ := by simpa using he
  exact congrArg Fin.val ((List.Nodup.get_inj_iff h).mp h2)

theorem mem_collectCB {prods : List String} {f : Nat → ℚ} {ups : List String}
    {topK : Nat} :
    ∀ (order : List Nat) (cnt : Nat) (r : RecItem),
      r ∈ collectCB prods f ups topK order cnt →
      ∃ i ∈ order, r = (prods.getD i "", f i, ["cb"]) ∧ prods.getD i "" ∉ ups := by
  intro order
  induction order with
  | nil => intro cnt r h; simp [collectCB] at h
  | cons i rest ih =>
    intro cnt r h
    rw [collectCB] at h
    by_cases h1 : prods.getD i "" ∈ ups
    · rw [if_pos h1] at h
      obtain ⟨j, hj, hr⟩ := ih cnt r h
      exact ⟨j, List.mem_cons_of_mem i hj, hr⟩
    · rw [if_neg h1] at h
      by_cases h2 : topK ≤ cnt + 1
      · rw [if_pos h2] at h
        simp only [List.mem_singleton] at h
        exact ⟨i, List.mem_cons_self i rest, h, h1⟩
      · rw [if_neg h2] at h
        rcases List.mem_cons.1 h with h | h
        · exact ⟨i, List.mem_cons_self i rest, h, h1⟩
        · obtain ⟨j, hj, hr⟩ := ih (cnt + 1) r h
          exact ⟨j, List.mem_cons_of_mem i hj, hr⟩

theorem collectCB_nodup {prods : List String} {f : Nat → ℚ} {ups : List String}
    {topK : Nat} (hprods : prods.Nodup) :
    ∀ (order : List Nat) (cnt : Nat), order.Nodup → (∀ i ∈ order, i < prods.length) →
      ((collectCB prods f ups topK order cnt).map Prod.fst).Nodup := by
  intro order
  induction order with
  | nil => intro cnt _ _; simp [collectCB]
  | cons i rest ih =>
    intro cnt hnd hlt
    rw [List.nodup_cons] at hnd
    rw [collectCB]
    by_cases h1 : prods.getD i "" ∈ ups
    · rw [if_pos h1]
      exact ih cnt hnd.2 (fun j hj => hlt j (List.mem_cons_of_mem i hj))
    · rw [if_neg h1]
      by_cases h2 : topK ≤ cnt + 1
      · rw [if_pos h2]; simp
      · rw [if_neg h2]
        simp only [List.map_cons, List.nodup_cons]
        refine ⟨?_, ih (cnt + 1) hnd.2 (fun j hj => hlt j (List.mem_cons_of_mem i hj))⟩
        intro hmem
        rw [List.mem_map] at hmem
        obtain ⟨r, hr, hrfst⟩ := hmem
        obtain ⟨j, hj, hrj, _⟩ := mem_collectCB rest (cnt + 1) r hr
        rw [hrj] at hrfst
        have hij : j = i := getD_inj hprods
          (hlt j (List.mem_cons_of_mem i hj)) (hlt i (List.mem_cons_self i rest)) hrfst
        rw [hij] at hj
        exact hnd.1 hj

theorem collectCB_length {prods : List String} {f : Nat → ℚ} {ups : List String}
    {topK : Nat} :
    ∀ (order : List Nat) (cnt : Nat), cnt < topK →
      (collectCB prods f ups topK order cnt).length ≤ topK - cnt := by
  intro order
  induction order with
  | nil => intro cnt _; simp [collectCB]
  | cons i rest ih =>
    intro cnt hcnt
    rw [collectCB]
    by_cases h1 : prods.getD i "" ∈ ups
    · rw [if_pos h1]; exact ih cnt hcnt
    · rw [if_neg h1]
      by_cases h2 : topK ≤ cnt + 1
      · rw [if_pos h2]
        simp only [List.length_singleton]
        omega
      · rw [if_neg h2]
        have := ih (cnt + 1) (by omega)
        simp only [List.length_cons]
        omega

theorem cb_nodup (st : ModelState) (db : Db) (u : String) (topK : Nat)
    (hp : ∀ tf, st.tfidf = some tf → tf.products.Nodup) :
    ((get_content_based_recommendations st db u topK).map Prod.fst).Nodup := by
  rw [get_content_based_recommendations]
  cases htf : st.tfidf with
  | none => simp
  | some tf =>
    by_cases h1 : ((db.orderHistory u ++ db.viewEvents u).dedup).isEmpty
    · simp [h1]
    · simp only [h1, Bool.false_eq_true, if_false]
      by_cases h2 : (((db.orderHistory u ++ db.viewEvents u).dedup).filterMap
          (fun p => tf.products.findIdx? (fun q => q == p))).isEmpty
      · simp [h2]
      · simp only [h2, Bool.false_eq_true, if_false]
        exact collectCB_nodup (hp tf htf) _ 0 (argsortDesc_nodup _ _)
          (fun i hi => argsortDesc_lt hi)

theorem cb_length (st : ModelState) (db : Db) (u : String) (topK : Nat)
    (hk : 1 ≤ topK) :
    (get_content_based_recommendations st db u topK).length ≤ topK := by
  rw [get_content_based_recommendations]
  cases htf : st.tfidf with
  | none => simp
  | some tf =>
    by_cases h1 : ((db.orderHistory u ++ db.viewEvents u).dedup).isEmpty
    · simp [h1]
    · simp only [h1, Bool.false_eq_true, if_false]
      by_cases h2 : (((db.orderHistory u ++ db.viewEvents u).dedup).filterMap
          (fun p => tf.products.findIdx? (fun q => q == p))).isEmpty
      · simp [h2]
      · simp only [h2, Bool.false_eq_true, if_false]
        refine le_trans (collectCB_length _ 0 (by omega)) ?_
        omega

/-! ## Lemmas about the cold-start scorer -/

theorem topSelling_nodup (rows : List (String × Nat)) (limit : Nat) :
    (get_top_selling_products rows limit).Nodup := by
  rw [get_top_selling_products]
  set keys := (rows.map Prod.fst).dedup with hkdef
  set totals := keys.map
    (fun k => (k, ((rows.filter (fun r => r.1 == k)).map Prod.snd).sum)) with htdef
  have h1 : totals.map Prod.fst = keys := by
    have hcomp : (Prod.fst ∘ fun k : String =>
        (k, ((rows.filter (fun r => r.1 == k)).map Prod.snd).sum)) = id := rfl
    rw [htdef, List.map_map, hcomp, List.map_id]
  have h2 : ((List.insertionSort byTotalDesc totals).map Prod.fst).Nodup := by
    have hp : List.Perm ((List.insertionSort byTotalDesc totals).map Prod.fst)
        (totals.map Prod.fst) := (List.perm_insertionSort _ _).map _
    rw [hp.nodup_iff, h1, hkdef]
    exact List.nodup_dedup _
  rw [List.map_take]
  exact List.Nodup.sublist (List.take_sublist _ _) h2

theorem topSelling_length (rows : List (String × Nat)) (limit : Nat) :
    (get_top_selling_products rows limit).length ≤ limit := by
  rw [get_top_selling_products]
  simp only [List.length_map, List.length_take]
  exact min_le_left _ _

theorem coldStart_ids (db : Db) (topK : Nat) :
    (get_cold_start_recommendations db topK).map Prod.fst =
      get_top_selling_products db.orderItems topK := by
  rw [get_cold_start_recommendations, List.map_map]
  have : (Prod.fst ∘ fun p : Nat × String =>
      ((p.2 : String), (1 - ((p.1 : ℚ) / ((get_top_selling_products db.orderItems topK).length : ℚ)) * (1/2) : ℚ),
        (["popular"] : List String))) = Prod.snd := by
    funext p
    rfl
  rw [this]
  exact List.enum_map_snd _

theorem coldStart_nodup (db : Db) (topK : Nat) :
    ((get_cold_start_recommendations db topK).map Prod.fst).Nodup := by
  rw [coldStart_ids]
  exact topSelling_nodup _ _

theorem coldStart_length_eq (db : Db) (topK : Nat) :
    (get_cold_start_recommendations db topK).length =
      (get_top_selling_products db.orderItems topK).length := by
  rw [get_cold_start_recommendations]
  simp

theorem coldStart_length (db : Db) (topK : Nat) :
    (get_cold_start_recommendations db topK).length ≤ topK := by
  rw [coldStart_length_eq]
  exact topSelling_length _ _

theorem coldStart_get (db : Db) (topK : Nat) (i : Nat)
    (h : i < (get_cold_start_recommendations db topK).length) :
    (get_cold_start_recommendations db topK).get ⟨i, h⟩ =
      ((get_top_selling_products db.orderItems topK).getD i "",
        1 - ((i : ℚ) / ((get_top_selling_products db.orderItems topK).length : ℚ)) * (1/2),
        ["popular"]) := by
  have hlen := coldStart_length_eq db topK
  have hi : i < (get_top_selling_products db.orderItems topK).length := hlen ▸ h
  rw [List.get_eq_getElem, List.getD_eq_getElem _ "" hi]
  simp [get_cold_start_recommendations, List.getElem_map, List.getElem_enum]

theorem coldStart_getElem (db : Db) (topK : Nat) (i : Nat)
    (h : i < (get_cold_start_recommendations db topK).length) :
    (get_cold_start_recommendations db topK)[i] =
      ((get_top_selling_products db.orderItems topK).getD i "",
        1 - ((i : ℚ) / ((get_top_selling_products db.orderItems topK).length : ℚ)) * (1/2),
        ["popular"]) := by
  have h2 := coldStart_get db topK i h
  rw [List.get_eq_getElem] at h2
  exact h2

/-! ## Lemmas about the hybrid blender -/

theorem dictGet_of_mem_nodup {β : Type} :
    ∀ {m : List (String × β)} {k : String} {v : β},
      (m.map Prod.fst).Nodup → (k, v) ∈ m → dictGet m k = some v := by
  intro m
  induction m with
  | nil => intro k v _ h; simp at h
  | cons e m ih =>
    intro k v hnd h
    rw [List.map_cons, List.nodup_cons] at hnd
    rcases List.mem_cons.1 h with h | h
    · rw [← h]
      simp [dictGet]
    · have hk : ¬ e.1 = k := by
        intro he
        exact hnd.1 (he ▸ List.mem_map_of_mem Prod.fst h)
      rw [dictGet, if_neg hk]
      exact ih hnd.2 h

theorem foldl_dictSet_get (cfW : ℚ) :
    ∀ (cf : List RecItem) (m : List RecItem), (cf.map Prod.fst).Nodup → ∀ p,
      dictGet (cf.foldl (fun m r => dictSet m r.1 (r.2.1 * cfW, r.2.2.dedup)) m) p =
        match dictGet cf p with
        | some sr => some (sr.1 * cfW, sr.2.dedup)
        | none => dictGet m p := by
  intro cf
  induction cf with
  | nil => intro m _ p; simp [dictGet]
  | cons r rest ih =>
    intro m hnd p
    rw [List.map_cons, List.nodup_cons] at hnd
    rw [List.foldl_cons, ih _ hnd.2 p]
    by_cases hp : r.1 = p
    · have hrest : dictGet rest p = none := by
        rw [dictGet_eq_none]
        rw [← hp]
        exact hnd.1
      rw [hrest, dictGet, if_pos hp]
      rw [← hp]
      exact dictGet_dictSet_self m r.1 _
    · rw [dictGet, if_neg hp]
      cases hrest : dictGet rest p
      · exact dictGet_dictSet_ne m r.1 p _ (fun e => hp e.symm)
      · rfl

theorem cbFold_get (cbW : ℚ) :
    ∀ (cb : List RecItem) (m : List RecItem), (cb.map Prod.fst).Nodup → ∀ p,
      dictGet (cb.foldl (fun m r =>
        match dictGet m r.1 with
        | some sr => dictSet m r.1 (sr.1 + r.2.1 * cbW, setAdd (setUnion sr.2 r.2.2) "hybrid")
        | none => dictSet m r.1 (r.2.1 * cbW, r.2.2.dedup)) m) p =
        match dictGet cb p, dictGet m p with
        | some sr, some s0 => some (s0.1 + sr.1 * cbW, setAdd (setUnion s0.2 sr.2) "hybrid")
        | some sr, none => some (sr.1 * cbW, sr.2.dedup)
        | none, _ => dictGet m p := by
  intro cb
  induction cb with
  | nil =>
    intro m _ p
    simp [dictGet]
  | cons r rest ih =>
    intro m hnd p
    rw [List.map_cons, List.nodup_cons] at hnd
    rw [List.foldl_cons, ih _ hnd.2 p]
    by_cases hp : r.1 = p
    · have hrest : dictGet rest p = none := by
        rw [dictGet_eq_none, ← hp]
        exact hnd.1
      rw [hrest, dictGet, if_pos hp]
      cases h0 : dictGet m r.1 with
      | some s0 =>
        have h0' : dictGet m p = some s0 := hp ▸ h0
        rw [h0', ← hp]
        exact dictGet_dictSet_self m r.1 _
      | none =>
        have h0' : dictGet m p = none := hp ▸ h0
        rw [h0', ← hp]
        exact dictGet_dictSet_self m r.1 _
    · have hstep : dictGet (match dictGet m r.1 with
          | some sr => dictSet m r.1 (sr.1 + r.2.1 * cbW, setAdd (setUnion sr.2 r.2.2) "hybrid")
          | none => dictSet m r.1 (r.2.1 * cbW, r.2.2.dedup)) p = dictGet m p := by
        cases dictGet m r.1 with
        | some s0 => exact dictGet_dictSet_ne m r.1 p _ (fun e => hp e.symm)
        | none => exact dictGet_dictSet_ne m r.1 p _ (fun e => hp e.symm)
      rw [hstep, dictGet, if_neg hp]

theorem mem_setAdd {s : List String} {x y : String} :
    y ∈ setAdd s x ↔ y ∈ s ∨ y = x := by
  rw [setAdd]
  by_cases h : x ∈ s
  · rw [if_pos h]
    constructor
    · exact Or.inl
    · rintro (hy | hy)
      · exact hy
      · rw [hy]; exact h
  · rw [if_neg h]
    simp [List.mem_append]

theorem mem_setUnion {l : List String} :
    ∀ {s : List String} {y : String}, y ∈ setUnion s l ↔ y ∈ s ∨ y ∈ l := by
  induction l with
  | nil => intro s y; simp [setUnion]
  | cons x l ih =>
    intro s y
    have hstep : setUnion s (x :: l) = setUnion (setAdd s x) l := rfl
    rw [hstep, ih, mem_setAdd, List.mem_cons]
    tauto

theorem hybridCombine_get (cf cb : List RecItem) (cfW cbW : ℚ)
    (hcf : (cf.map Prod.fst).Nodup) (hcb : (cb.map Prod.fst).Nodup) (p : String) :
    dictGet (hybridCombine cf cb cfW cbW) p =
      match dictGet cf p, dictGet cb p with
      | some s1, some s2 =>
        some (s1.1 * cfW + s2.1 * cbW, setAdd (setUnion s1.2.dedup s2.2) "hybrid")
      | some s1, none => some (s1.1 * cfW, s1.2.dedup)
      | none, some s2 => some (s2.1 * cbW, s2.2.dedup)
      | none, none => none := by
  rw [hybridCombine, cbFold_get cbW cb _ hcb p, foldl_dictSet_get cfW cf [] hcf p]
  cases dictGet cf p <;> cases dictGet cb p <;> simp [dictGet]

theorem foldl_dictSet_nodup {β γ : Type} (f : γ → String) (g : List (String × β) → γ → β) :
    ∀ (l : List γ) (m : List (String × β)), (m.map Prod.fst).Nodup →
      ((l.foldl (fun m x => dictSet m (f x) (g m x)) m).map Prod.fst).Nodup := by
  intro l
  induction l with
  | nil => intro m hm; exact hm
  | cons x l ih =>
    intro m hm
    rw [List.foldl_cons]
    exact ih _ (keys_dictSet_nodup _ _ hm)

theorem hybridCombine_keys_nodup (cf cb : List RecItem) (cfW cbW : ℚ) :
    ((hybridCombine cf cb cfW cbW).map Prod.fst).Nodup := by
  rw [hybridCombine]
  have hfun : (fun (m : List RecItem) (r : RecItem) =>
      match dictGet m r.1 with
      | some sr => dictSet m r.1 (sr.1 + r.2.1 * cbW, setAdd (setUnion sr.2 r.2.2) "hybrid")
      | none => dictSet m r.1 (r.2.1 * cbW, r.2.2.dedup)) =
      (fun (m : List RecItem) (r : RecItem) => dictSet m r.1
        (match dictGet m r.1 with
        | some sr => (sr.1 + r.2.1 * cbW, setAdd (setUnion sr.2 r.2.2) "hybrid")
        | none => (r.2.1 * cbW, r.2.2.dedup))) := by
    funext m r
    cases dictGet m r.1 <;> rfl
  rw [hfun]
  apply foldl_dictSet_nodup Prod.fst
  apply foldl_dictSet_nodup Prod.fst
  simp

/-- In a `Pairwise`-ordered list, everything kept by `take` is related to
everything discarded into `drop`. -/
theorem pairwise_take_drop {α : Type} {R : α → α → Prop} {l : List α}
    (h : l.Pairwise R) (n : Nat) :
    ∀ x ∈ l.take n, ∀ y ∈ l.drop n, R x y := by
  rw [← List.take_append_drop n l] at h
  exact fun x hx y hy => (List.pairwise_append.mp h).2.2 x hx y hy

theorem hybrid_length (st : ModelState) (db : Db) (u : String) (topK : Nat)
    (cfW cbW : ℚ) :
    (get_hybrid_recommendations st db u topK cfW cbW).length ≤ topK := by
  rw [get_hybrid_recommendations]
  simp only [List.length_take]
  exact min_le_left _ _

theorem hybrid_nodup (st : ModelState) (db : Db) (u : String) (topK : Nat)
    (cfW cbW : ℚ) :
    ((get_hybrid_recommendations st db u topK cfW cbW).map Prod.fst).Nodup := by
  rw [get_hybrid_recommendations]
  have hs : ((List.insertionSort byScoreDesc
      (hybridCombine (get_collaborative_recommendations st db u (topK * 2))
        (get_content_based_recommendations st db u (topK * 2)) cfW cbW)).map Prod.fst).Nodup := by
    have hp := (List.perm_insertionSort byScoreDesc
      (hybridCombine (get_collaborative_recommendations st db u (topK * 2))
        (get_content_based_recommendations st db u (topK * 2)) cfW cbW)).map Prod.fst
    rw [hp.nodup_iff]
    exact hybridCombine_keys_nodup _ _ _ _
  rw [List.map_take]
  exact List.Nodup.sublist (List.take_sublist _ _) hs

/-! ## Lemmas about the cache -/

theorem dictGet_dictDel_ne {β : Type} (m : List (String × β)) (k k' : String)
    (h : k' ≠ k) : dictGet (dictDel m k) k' = dictGet m k' := by
  induction m with
  | nil => rfl
  | cons e m ih =>
    by_cases he : e.1 = k
    · rw [dictDel, if_pos he, dictGet, if_neg (by rw [he]; exact fun hh => h hh.symm)]
    · rw [dictDel, if_neg he, dictGet, dictGet]
      by_cases he' : e.1 = k'
      · rw [if_pos he', if_pos he']
      · rw [if_neg he', if_neg he', ih]

theorem dictGet_dictDel_self {β : Type} (m : List (String × β)) (k : String)
    (hnd : (m.map Prod.fst).Nodup) : dictGet (dictDel m k) k = none := by
  rw [dictDel_eq_filter k hnd, dictGet_eq_none]
  intro hmem
  rw [List.mem_map] at hmem
  obtain ⟨e, he, hek⟩ := hmem
  rw [List.mem_filter] at he
  rw [hek] at he
  simp at he

theorem length_dictSet_mem {β : Type} (m : List (String × β)) (k : String) (v : β)
    (h : k ∈ m.map Prod.fst) : (dictSet m k v).length = m.length := by
  have := keys_dictSet m k v
  rw [if_pos h] at this
  have hl := congrArg List.length this
  simpa using hl

theorem length_dictSet_not_mem {β : Type} (m : List (String × β)) (k : String) (v : β)
    (h : k ∉ m.map Prod.fst) : (dictSet m k v).length = m.length + 1 := by
  have := keys_dictSet m k v
  rw [if_neg h] at this
  have hl := congrArg List.length this
  simpa using hl

/-- Splitting the timestamp-sorted cache at position 200: members of the
prefix have their key in the prefix's key list, and (for duplicate-free
keys) members of the suffix do not. -/
theorem sorted_split_keys (c1 : Cache) (hnd : (c1.map Prod.fst).Nodup) :
    (∀ e ∈ (List.insertionSort byTsAsc c1).take 200,
      e.1 ∈ ((List.insertionSort byTsAsc c1).take 200).map Prod.fst) ∧
    (∀ e ∈ (List.insertionSort byTsAsc c1).drop 200,
      e.1 ∉ ((List.insertionSort byTsAsc c1).take 200).map Prod.fst) := by
  have hsnd : ((List.insertionSort byTsAsc c1).map Prod.fst).Nodup := by
    have hp : List.Perm ((List.insertionSort byTsAsc c1).map Prod.fst)
        (c1.map Prod.fst) := (List.perm_insertionSort _ _).map _
    rw [hp.nodup_iff]
    exact hnd
  constructor
  · intro e he
    exact List.mem_map_of_mem Prod.fst he
  · intro e he hmem
    have hkeys : (List.insertionSort byTsAsc c1).map Prod.fst =
        ((List.insertionSort byTsAsc c1).take 200).map Prod.fst ++
          ((List.insertionSort byTsAsc c1).drop 200).map Prod.fst := by
      rw [← List.map_append, List.take_append_drop]
    rw [hkeys] at hsnd
    exact (List.disjoint_of_nodup_append hsnd) hmem (List.mem_map_of_mem Prod.fst he)

theorem mem_foldl_dictDel {β γ : Type} (f : γ → String) :
    ∀ (l : List γ) (m : List (String × β)) (e : String × β),
      e ∈ l.foldl (fun m x => dictDel m (f x)) m → e ∈ m := by
  intro l
  induction l with
  | nil => intro m e h; simpa using h
  | cons x l ih =>
    intro m e h
    rw [List.foldl_cons] at h
    exact mem_dictDel (ih _ e h)

/-- Full characterisation of the eviction branch of
`set_cached_recommendations`: 200 entries disappear, survivors come from
the cache, and every removed entry is at least as old as every survivor. -/
theorem set_cached_evict (c : Cache) (now : ℚ) (u : String) (k : Nat)
    (recs : List RecItem) (hnd : (c.map Prod.fst).Nodup)
    (hbig : 1000 < (dictSet c (cacheKey u k) (recs, now)).length) :
    (set_cached_recommendations c now u k recs).length + 200 =
      (dictSet c (cacheKey u k) (recs, now)).length ∧
    (∀ e ∈ set_cached_recommendations c now u k recs,
      e ∈ dictSet c (cacheKey u k) (recs, now)) ∧
    (∀ e ∈ dictSet c (cacheKey u k) (recs, now),
      e ∉ set_cached_recommendations c now u k recs →
      ∀ e' ∈ set_cached_recommendations c now u k recs, e.2.2 ≤ e'.2.2) := by
  have hnd1 : ((dictSet c (cacheKey u k) (recs, now)).map Prod.fst).Nodup :=
    keys_dictSet_nodup _ _ hnd
  set c1 := dictSet c (cacheKey u k) (recs, now) with hc1
  set sorted := List.insertionSort byTsAsc c1 with hsorteddef
  set ks := (sorted.take 200).map Prod.fst with hksdef
  have hr : set_cached_recommendations c now u k recs =
      c1.filter (fun e => !(decide (e.1 ∈ ks))) := by
    rw [set_cached_recommendations, ← hc1, if_pos hbig, ← hsorteddef]
    have hfold : (sorted.take 200).foldl (fun m kv => dictDel m kv.1) c1 =
        ks.foldl (fun m k => dictDel m k) c1 := by
      rw [hksdef, List.foldl_map]
    rw [hfold, foldl_dictDel_eq_filter ks c1 hnd1]
  have hperm : List.Perm sorted c1 := List.perm_insertionSort _ _
  have hsplit := sorted_split_keys c1 hnd1
  rw [← hsorteddef, ← hksdef] at hsplit
  have hfs : sorted.filter (fun e => !(decide (e.1 ∈ ks))) = sorted.drop 200 := by
    conv_lhs => rw [← List.take_append_drop 200 sorted]
    rw [List.filter_append]
    have h1 : (sorted.take 200).filter (fun e => !(decide (e.1 ∈ ks))) = [] := by
      rw [List.filter_eq_nil_iff]
      intro e he
      simp [hsplit.1 e he]
    have h2 : (sorted.drop 200).filter (fun e => !(decide (e.1 ∈ ks))) = sorted.drop 200 := by
      rw [List.filter_eq_self]
      intro e he
      simp [hsplit.2 e he]
    rw [h1, h2, List.nil_append]
  have hpermf : List.Perm (sorted.filter (fun e => !(decide (e.1 ∈ ks))))
      (c1.filter (fun e => !(decide (e.1 ∈ ks)))) := hperm.filter _
  have hsortedp : List.Pairwise byTsAsc sorted := List.sorted_insertionSort byTsAsc c1
  refine ⟨?_, ?_, ?_⟩
  · rw [hr]
    have hlen1 : (c1.filter (fun e => !(decide (e.1 ∈ ks)))).length =
        (sorted.drop 200).length := by
      rw [← hpermf.length_eq, hfs]
    have hlen2 : sorted.length = c1.length := hperm.length_eq
    rw [hlen1, List.length_drop]
    omega
  · intro e he
    rw [hr] at he
    exact List.mem_of_mem_filter he
  · intro e he hnotin e' he'
    rw [hr] at hnotin he'
    have heks : e.1 ∈ ks := by
      by_contra habs
      exact hnotin (List.mem_filter.2 ⟨he, by simpa using habs⟩)
    have hesorted : e ∈ sorted := hperm.mem_iff.2 he
    have hetake : e ∈ sorted.take 200 := by
      rcases List.mem_append.1 ((List.take_append_drop 200 sorted) ▸ hesorted) with h | h
      · exact h
      · exact absurd heks (hsplit.2 e h)
    have he'c1 : e' ∈ c1 := List.mem_of_mem_filter he'
    have he'ks : e'.1 ∉ ks := by
      have := List.of_mem_filter he'
      simpa using this
    have he'sorted : e' ∈ sorted := hperm.mem_iff.2 he'c1
    have he'drop : e' ∈ sorted.drop 200 := by
      rcases List.mem_append.1 ((List.take_append_drop 200 sorted) ▸ he'sorted) with h | h
      · exact absurd (hsplit.1 e' h) he'ks
      · exact h
    exact pairwise_take_drop hsortedp 200 e hetake e' he'drop

/-! ## Lemmas about the endpoint and the cache invariant -/

theorem user_recs_hit (st : ModelState) (db : Db) (c : Cache) (now : ℚ)
    (u : String) (topK : Nat) (l : List RecItem)
    (h : (get_cached_recommendations c now u topK).1 = some l) :
    get_user_recommendations st db c now u topK =
      ({ user_id := u, items := l, method := "hybrid (cached)" },
        (get_cached_recommendations c now u topK).2) := by
  cases hg : get_cached_recommendations c now u topK with
  | mk o c' =>
    rw [hg] at h
    simp only at h
    rw [h] at hg
    simp only [get_user_recommendations, hg]

theorem user_recs_miss (st : ModelState) (db : Db) (c : Cache) (now : ℚ)
    (u : String) (topK : Nat)
    (h : (get_cached_recommendations c now u topK).1 = none) :
    get_user_recommendations st db c now u topK =
      ({ user_id := u, items := (computeRecs st db u topK).1,
          method := (computeRecs st db u topK).2 },
        set_cached_recommendations (get_cached_recommendations c now u topK).2
          now u topK (computeRecs st db u topK).1) := by
  cases hg : get_cached_recommendations c now u topK with
  | mk o c' =>
    rw [hg] at h
    simp only at h
    rw [h] at hg
    simp only [get_user_recommendations, hg]

theorem get_cached_eq_some (c : Cache) (now : ℚ) (u : String) (topK : Nat)
    (dt : List RecItem × ℚ) (hg : dictGet c (cacheKey u topK) = some dt) :
    get_cached_recommendations c now u topK =
      if now - dt.2 < cacheTtl then (some dt.1, c)
      else (none, dictDel c (cacheKey u topK)) := by
  rw [get_cached_recommendations, hg]

theorem get_cached_eq_none (c : Cache) (now : ℚ) (u : String) (topK : Nat)
    (hg : dictGet c (cacheKey u topK) = none) :
    get_cached_recommendations c now u topK = (none, c) := by
  rw [get_cached_recommendations, hg]

theorem get_cached_hit_entry (c : Cache) (now : ℚ) (u : String) (topK : Nat)
    (l : List RecItem) (h : (get_cached_recommendations c now u topK).1 = some l) :
    ∃ t, dictGet c (cacheKey u topK) = some (l, t) ∧ now - t < cacheTtl := by
  cases hg : dictGet c (cacheKey u topK) with
  | none => rw [get_cached_eq_none c now u topK hg] at h; simp at h
  | some dt =>
    rw [get_cached_eq_some c now u topK dt hg] at h
    by_cases hfresh : now - dt.2 < cacheTtl
    · rw [if_pos hfresh] at h
      simp only [Option.some.injEq] at h
      refine ⟨dt.2, ?_, hfresh⟩
      first
        | rw [hg, ← h]
        | rw [← h]

    · rw [if_neg hfresh] at h
      simp at h

theorem cacheInv_get (c : Cache) (now : ℚ) (u : String) (topK : Nat)
    (h : CacheInv c) : CacheInv (get_cached_recommendations c now u topK).2 := by
  cases hg : dictGet c (cacheKey u topK) with
  | none => rw [get_cached_eq_none c now u topK hg]; exact h
  | some dt =>
    rw [get_cached_eq_some c now u topK dt hg]
    by_cases hfresh : now - dt.2 < cacheTtl
    · rw [if_pos hfresh]
      exact h
    · rw [if_neg hfresh]
      intro e he
      exact h e (mem_dictDel he)

theorem cacheInv_set (c : Cache) (now : ℚ) (u : String) (topK : Nat)
    (recs : List RecItem) (h : CacheInv c) (hg : GoodList topK recs) :
    CacheInv (set_cached_recommendations c now u topK recs) := by
  have hsub : ∀ e ∈ set_cached_recommendations c now u topK recs,
      e ∈ dictSet c (cacheKey u topK) (recs, now) := by
    rw [set_cached_recommendations]
    by_cases hbig : 1000 < (dictSet c (cacheKey u topK) (recs, now)).length
    · rw [if_pos hbig]
      intro e he
      exact mem_foldl_dictDel Prod.fst _ _ e he
    · rw [if_neg hbig]
      intro e he
      exact he
  intro e he u' k' hk'
  rcases mem_dictSet (hsub e he) with hmem | hmem
  · exact h e hmem u' k' hk'
  · rw [hmem] at hk' ⊢
    have hkk : topK = k' := cacheKey_inj_k u u' topK k' hk'
    rw [← hkk]
    exact hg

theorem computeRecs_good (st : ModelState) (db : Db) (u : String) (topK : Nat)
    (hk : 1 ≤ topK) (hp : ProductsOk st) :
    GoodList topK (computeRecs st db u topK).1 := by
  have hcold : GoodList topK (get_cold_start_recommendations db topK) :=
    ⟨coldStart_length db topK, coldStart_nodup db topK⟩
  have hhyb : GoodList topK (get_hybrid_recommendations st db u topK) :=
    ⟨hybrid_length st db u topK _ _, hybrid_nodup st db u topK _ _⟩
  have hcf : GoodList topK (get_collaborative_recommendations st db u topK) :=
    ⟨cf_length st db u topK hk, cf_nodup st db u topK⟩
  have hcb : GoodList topK (get_content_based_recommendations st db u topK) :=
    ⟨cb_length st db u topK hk, cb_nodup st db u topK hp⟩
  simp only [computeRecs]
  repeat' split
  all_goals first
    | exact hcold
    | exact hhyb
    | exact hcf
    | exact hcb

/-- The single-model fallback branch: with history, an under-filled hybrid
result and a non-empty collaborative re-run, the endpoint adopts the
collaborative list no matter how the candidate counts compare. -/
theorem computeRecs_single_cf (st : ModelState) (db : Db) (u : String) (topK : Nat)
    (hhist : ((db.orderHistory u).isEmpty && (db.viewEvents u).isEmpty) = false)
    (hund : (get_hybrid_recommendations st db u topK).length < topK / 2)
    (hcf : (get_collaborative_recommendations st db u topK).isEmpty = false) :
    computeRecs st db u topK =
      (get_collaborative_recommendations st db u topK, "collaborative") := by
  simp only [computeRecs]
  repeat' split
  all_goals first
    | rfl
    | (exfalso; simp_all)

/-- The single-model fallback branch: with history, an under-filled hybrid
result, an empty collaborative re-run and a non-empty content-based
re-run, the endpoint adopts the content-based list. -/
theorem computeRecs_single_cb (st : ModelState) (db : Db) (u : String) (topK : Nat)
    (hhist : ((db.orderHistory u).isEmpty && (db.viewEvents u).isEmpty) = false)
    (hund : (get_hybrid_recommendations st db u topK).length < topK / 2)
    (hcf : (get_collaborative_recommendations st db u topK).isEmpty = true)
    (hcb : (get_content_based_recommendations st db u topK).isEmpty = false) :
    computeRecs st db u topK =
      (get_content_based_recommendations st db u topK, "content-based") := by
  simp only [computeRecs]
  repeat' split
  all_goals first
    | rfl
    | (exfalso; simp_all)

/-! ## Claims -/

/-- C2 (counterexample): `refresh` is not atomic. Starting from a state
where all three models are loaded, a refresh whose ALS artifact read fails
nulls the ALS slot (the previous ALS model is lost) while still swapping
in the freshly read TF-IDF artifact — a mixed old-lost/new-loaded state is
exposed, so the previous in-memory state does not remain intact. -/
theorem refresh_not_atomic_cex :
    stOld.als.isSome = true ∧
    (refresh_recommendations stOld [] artsFail).1.als.isSome = false ∧
    stOld.tfidf.map TfidfData.products = some [] ∧
    (refresh_recommendations stOld [] artsFail).1.tfidf.map TfidfData.products =
      some ["x"] :=
  ⟨rfl, rfl, rfl, rfl⟩

/-- C2 (amended): `refresh` clears the cache and overwrites each of the
three model slots independently with the outcome of its own artifact read
(the new value on success, `None` on failure), discarding the previous
state entirely: the result never depends on the pre-refresh state. -/
theorem refresh_overwrites_slots (st st' : ModelState) (c c' : Cache) (a : Artifacts) :
    refresh_recommendations st c a = refresh_recommendations st' c' a ∧
    (refresh_recommendations st c a).1.als = a.als ∧
    (refresh_recommendations st c a).1.tfidf = a.tfidf ∧
    (refresh_recommendations st c a).1.mappings = a.mappings ∧
    (refresh_recommendations st c a).2 = [] :=
  ⟨rfl, rfl, rfl, rfl, rfl⟩

/-- C7 (counterexample): the collaborative scorer does not exclude viewed
items: product `v`, which the user has viewed (but not purchased), appears
in the collaborative candidate list. -/
theorem cf_excludes_viewed_cex :
    "v" ∈ db7.viewEvents "u" ∧
    "v" ∈ (get_collaborative_recommendations st7 db7 "u" 5).map Prod.fst := by
  decide

/-- C7 (amended): the collaborative scorer excludes only the user's
purchased items from its neighbour results; no purchased item ever
appears in the collaborative candidate list (viewed-only items may). -/
theorem cf_excludes_purchased_only (st : ModelState) (db : Db) (u : String)
    (topK : Nat) (p : String) (hp : p ∈ db.orderHistory u) :
    p ∉ (get_collaborative_recommendations st db u topK).map Prod.fst :=
  cf_not_purchased st db u topK hp

/-- C7 (witness): concrete run of the amended theorem — the purchased
product `p` is absent from the collaborative output. -/
theorem cf_excludes_purchased_only_witness :
    "p" ∈ db7.orderHistory "u" ∧
    "p" ∉ (get_collaborative_recommendations st7 db7 "u" 5).map Prod.fst :=
  ⟨by decide, cf_excludes_purchased_only st7 db7 "u" 5 "p" (by decide)⟩

/-- C9: on a cache hit the endpoint reports the fixed provenance string
"hybrid (cached)" and returns the cached items unchanged, whatever method
originally computed the cached list. -/
theorem cache_hit_method (st : ModelState) (db : Db) (c : Cache) (now : ℚ)
    (u : String) (topK : Nat) (l : List RecItem)
    (h : (get_cached_recommendations c now u topK).1 = some l) :
    (get_user_recommendations st db c now u topK).1.method = "hybrid (cached)" ∧
    (get_user_recommendations st db c now u topK).1.items = l := by
  rw [user_recs_hit st db c now u topK l h]
  exact ⟨rfl, rfl⟩

/-- C9 (witness): a list first computed by the cold-start fallback
(method "popular (cold-start)") is, on a later cache hit, served with
method "hybrid (cached)". -/
theorem cache_hit_method_witness :
    (get_user_recommendations stOld db9 [] 0 "u" 2).1.method = "popular (cold-start)" ∧
    (get_cached_recommendations (get_user_recommendations stOld db9 [] 0 "u" 2).2
      1 "u" 2).1 = some [("p", 1, ["popular"])] ∧
    (get_user_recommendations stOld db9
      (get_user_recommendations stOld db9 [] 0 "u" 2).2 1 "u" 2).1.method =
      "hybrid (cached)" := by
  have h1 : get_user_recommendations stOld db9 [] 0 "u" 2 =
      ({ user_id := "u", items := [("p", 1, ["popular"])],
          method := "popular (cold-start)" },
        [(cacheKey "u" 2, ([("p", 1, ["popular"])], 0))]) := by
    norm_num [get_user_recommendations, get_cached_recommendations, computeRecs,
      set_cached_recommendations, get_cold_start_recommendations,
      get_top_selling_products, get_hybrid_recommendations, db9, dictGet, dictSet,
      cacheTtl, List.insertionSort, List.orderedInsert, byTotalDesc, List.dedup,
      List.pwFilter, show List.enum ["p"] = [(0, "p")] from rfl]
  have h2 : (get_cached_recommendations
      [(cacheKey "u" 2, ([("p", 1, ["popular"])], 0))] 1 "u" 2).1 =
      some [("p", 1, ["popular"])] := by
    norm_num [get_cached_recommendations, dictGet, cacheTtl]
  refine ⟨by rw [h1], by rw [h1]; exact h2, ?_⟩
  exact (cache_hit_method stOld db9 (get_user_recommendations stOld db9 [] 0 "u" 2).2
    1 "u" 2 [("p", 1, ["popular"])] (by rw [h1]; exact h2)).1

/-- C10: when the top-selling list is empty the cold-start fallback
returns the empty list, and the per-item score expression (whose
denominator is the length of the top-selling list) is only ever evaluated
at elements of that list, where the length is positive. -/
theorem cold_start_empty_safe (db : Db) (topK : Nat) :
    (get_top_selling_products db.orderItems topK = [] →
      get_cold_start_recommendations db topK = []) ∧
    (∀ p ∈ (get_top_selling_products db.orderItems topK).enum,
      0 < (get_top_selling_products db.orderItems topK).length) := by
  constructor
  · intro h
    rw [get_cold_start_recommendations, h]
    rfl
  · intro p hp
    cases hl : get_top_selling_products db.orderItems topK with
    | nil => rw [hl] at hp; simp at hp
    | cons a l => simp [hl]

/-- C10 (witness): with an empty order-items table the top-selling list is
empty and the cold-start fallback returns the empty list. -/
theorem cold_start_empty_safe_witness :
    get_top_selling_products db10.orderItems 5 = [] ∧
    get_cold_start_recommendations db10 5 = [] :=
  ⟨by decide, (cold_start_empty_safe db10 5).1 (by decide)⟩

/-- C6: `get(user_id, k)` returns the stored list iff an entry exists for
the key and `now - created_at < ttl` (ttl = 3600); otherwise it returns
nothing, and a present-but-expired entry is deleted by the read (other
keys are untouched). -/
theorem cache_get_contract (c : Cache) (now : ℚ) (u : String) (k : Nat)
    (hnd : (c.map Prod.fst).Nodup) :
    cacheTtl = 3600 ∧
    (∀ l, (get_cached_recommendations c now u k).1 = some l ↔
      ∃ t, dictGet c (cacheKey u k) = some (l, t) ∧ now - t < cacheTtl) ∧
    (∀ l t, dictGet c (cacheKey u k) = some (l, t) → ¬ now - t < cacheTtl →
      (get_cached_recommendations c now u k).1 = none ∧
      dictGet (get_cached_recommendations c now u k).2 (cacheKey u k) = none ∧
      (∀ key, key ≠ cacheKey u k →
        dictGet (get_cached_recommendations c now u k).2 key = dictGet c key)) ∧
    (dictGet c (cacheKey u k) = none → get_cached_recommendations c now u k = (none, c)) := by
  refine ⟨rfl, ?_, ?_, ?_⟩
  · intro l
    constructor
    · exact get_cached_hit_entry c now u k l
    · rintro ⟨t, hget, hfresh⟩
      rw [get_cached_eq_some c now u k (l, t) hget, if_pos hfresh]
  · intro l t hget hstale
    rw [get_cached_eq_some c now u k (l, t) hget, if_neg hstale]
    exact ⟨rfl, dictGet_dictDel_self c (cacheKey u k) hnd,
      fun key hk => dictGet_dictDel_ne c (cacheKey u k) key hk⟩
  · exact get_cached_eq_none c now u k

/-- C6 (witness): an entry created at time 0 and read at time 5000 (past
the 3600-second TTL) yields nothing and is deleted by the read. -/
theorem cache_get_contract_witness :
    (cacheC6.map Prod.fst).Nodup ∧
    (get_cached_recommendations cacheC6 5000 "u" 2).1 = none ∧
    dictGet (get_cached_recommendations cacheC6 5000 "u" 2).2 (cacheKey "u" 2) = none := by
  have hnd : (cacheC6.map Prod.fst).Nodup := by simp [cacheC6]
  have hget : dictGet cacheC6 (cacheKey "u" 2) = some ([("p", 1, ["popular"])], 0) := by
    simp [cacheC6, dictGet]
  have hstale : ¬ ((5000 : ℚ) - 0 < cacheTtl) := by norm_num [cacheTtl]
  have h := (cache_get_contract cacheC6 5000 "u" 2 hnd).2.2.1
    [("p", 1, ["popular"])] 0 hget hstale
  exact ⟨hnd, h.1, h.2.1⟩

/-- C5: `put` inserts or overwrites the entry for `(user_id, k)` with the
current timestamp; when the cache then holds at most 1000 entries nothing
is evicted, and when it holds more, exactly 200 entries are evicted, all
of them drawn from the cache and no newer (by creation time) than any
survivor, regardless of TTL state. Inserting a 1001st distinct key leaves
exactly 801 entries. -/
theorem cache_put_evicts (c : Cache) (now : ℚ) (u : String) (k : Nat)
    (recs : List RecItem) (hnd : (c.map Prod.fst).Nodup) :
    dictGet (dictSet c (cacheKey u k) (recs, now)) (cacheKey u k) = some (recs, now) ∧
    (¬ 1000 < (dictSet c (cacheKey u k) (recs, now)).length →
      set_cached_recommendations c now u k recs = dictSet c (cacheKey u k) (recs, now)) ∧
    (1000 < (dictSet c (cacheKey u k) (recs, now)).length →
      (set_cached_recommendations c now u k recs).length + 200 =
        (dictSet c (cacheKey u k) (recs, now)).length ∧
      (∀ e ∈ set_cached_recommendations c now u k recs,
        e ∈ dictSet c (cacheKey u k) (recs, now)) ∧
      (∀ e ∈ dictSet c (cacheKey u k) (recs, now),
        e ∉ set_cached_recommendations c now u k recs →
        ∀ e' ∈ set_cached_recommendations c now u k recs, e.2.2 ≤ e'.2.2)) ∧
    (c.length = 1000 → cacheKey u k ∉ c.map Prod.fst →
      (set_cached_recommendations c now u k recs).length = 801) := by
  refine ⟨dictGet_dictSet_self c (cacheKey u k) (recs, now), ?_,
    fun h => set_cached_evict c now u k recs hnd h, ?_⟩
  · intro h
    simp only [set_cached_recommendations]
    rw [if_neg h]
  · intro hlen hfresh
    have h1 : (dictSet c (cacheKey u k) (recs, now)).length = 1001 := by
      rw [length_dictSet_not_mem c _ _ hfresh, hlen]
    have hbig : 1000 < (dictSet c (cacheKey u k) (recs, now)).length := by omega
    have h2 := (set_cached_evict c now u k recs hnd hbig).1
    omega

/-- C5 (witness): inserting into a small duplicate-free cache stores the
list under the key with the current timestamp. -/
theorem cache_put_evicts_witness :
    (([] : Cache).map Prod.fst).Nodup ∧
    dictGet (dictSet ([] : Cache) (cacheKey "u" 1) ([], 0)) (cacheKey "u" 1) =
      some ([], 0) := by
  have hnd : (([] : Cache).map Prod.fst).Nodup := by simp
  exact ⟨hnd, (cache_put_evicts [] 0 "u" 1 [] hnd).1⟩

/-! Evaluation lemmas for the `st3`/`db3` instance. -/

theorem st3_cf20 : get_collaborative_recommendations st3 db3 "u" 20 =
    [("q", 9/10, ["cf"])] := rfl

theorem st3_cf40 : get_collaborative_recommendations st3 db3 "u" 40 =
    [("q", 9/10, ["cf"])] := rfl

theorem st3_cb20 : get_content_based_recommendations st3 db3 "u" 20 =
    [("A", 8/10, ["cb"]), ("B", 7/10, ["cb"])] := by
  norm_num [get_content_based_recommendations, st3, tf3, db3, argsortDesc, collectCB,
    show List.range 3 = [0, 1, 2] from rfl, List.insertionSort, List.orderedInsert,
    List.findIdx?, List.dedup, List.pwFilter]
  split_ifs <;> simp_all

theorem st3_cb40 : get_content_based_recommendations st3 db3 "u" 40 =
    [("A", 8/10, ["cb"]), ("B", 7/10, ["cb"])] := by
  norm_num [get_content_based_recommendations, st3, tf3, db3, argsortDesc, collectCB,
    show List.range 3 = [0, 1, 2] from rfl, List.insertionSort, List.orderedInsert,
    List.findIdx?, List.dedup, List.pwFilter]
  split_ifs <;> simp_all

theorem st3_hyb20_len : (get_hybrid_recommendations st3 db3 "u" 20).length = 3 := by
  rw [get_hybrid_recommendations, show (20 * 2) = 40 from rfl, st3_cf40, st3_cb40]
  norm_num [hybridCombine, dictGet, dictSet, setAdd, setUnion, List.dedup,
    List.pwFilter, List.insertionSort, List.orderedInsert, byScoreDesc]

theorem st3_method : (get_user_recommendations st3 db3 [] 0 "u" 20).1.method =
      "collaborative" ∧
    (get_user_recommendations st3 db3 [] 0 "u" 20).1.items =
      get_collaborative_recommendations st3 db3 "u" 20 := by
  have hmiss : (get_cached_recommendations [] 0 "u" 20).1 = none := rfl
  rw [user_recs_miss st3 db3 [] 0 "u" 20 hmiss]
  have hcr : computeRecs st3 db3 "u" 20 =
      (get_collaborative_recommendations st3 db3 "u" 20, "collaborative") := by
    apply computeRecs_single_cf
    · rfl
    · rw [st3_hyb20_len]
      norm_num
    · rw [st3_cf20]
      rfl
  rw [hcr]
  exact ⟨rfl, rfl⟩

/-- C3 (counterexample): the claim that the engine "uses the result of
whichever single scorer returned more candidates" is false. Here the
hybrid result is under-filled, the collaborative re-run returns 1
candidate and the content-based re-run returns 2, yet the endpoint adopts
the collaborative result. -/
theorem single_model_prefers_cf_cex :
    (get_collaborative_recommendations st3 db3 "u" 20).length = 1 ∧
    (get_content_based_recommendations st3 db3 "u" 20).length = 2 ∧
    (get_hybrid_recommendations st3 db3 "u" 20).length < 20 / 2 ∧
    (get_user_recommendations st3 db3 [] 0 "u" 20).1.method = "collaborative" ∧
    (get_user_recommendations st3 db3 [] 0 "u" 20).1.items =
      get_collaborative_recommendations st3 db3 "u" 20 := by
  refine ⟨by rw [st3_cf20]; rfl, by rw [st3_cb20]; rfl, ?_, st3_method.1, st3_method.2⟩
  rw [st3_hyb20_len]
  norm_num

/-- C3 (amended): when a user has history, the hybrid result holds fewer
than k/2 items and the request misses the cache, the engine re-runs both
single scorers with k and adopts the collaborative result whenever it is
non-empty (regardless of candidate counts); only when the collaborative
re-run is empty does it adopt a non-empty content-based result. -/
theorem single_model_fallback_spec (st : ModelState) (db : Db) (c : Cache)
    (now : ℚ) (u : String) (k : Nat)
    (hmiss : (get_cached_recommendations c now u k).1 = none)
    (hhist : ((db.orderHistory u).isEmpty && (db.viewEvents u).isEmpty) = false)
    (hund : (get_hybrid_recommendations st db u k).length < k / 2) :
    ((get_collaborative_recommendations st db u k).isEmpty = false →
      (get_user_recommendations st db c now u k).1.items =
        get_collaborative_recommendations st db u k ∧
      (get_user_recommendations st db c now u k).1.method = "collaborative") ∧
    ((get_collaborative_recommendations st db u k).isEmpty = true →
      (get_content_based_recommendations st db u k).isEmpty = false →
      (get_user_recommendations st db c now u k).1.items =
        get_content_based_recommendations st db u k ∧
      (get_user_recommendations st db c now u k).1.method = "content-based") := by
  rw [user_recs_miss st db c now u k hmiss]
  constructor
  · intro hcf
    rw [computeRecs_single_cf st db u k hhist hund hcf]
    exact ⟨rfl, rfl⟩
  · intro hcf hcb
    rw [computeRecs_single_cb st db u k hhist hund hcf hcb]
    exact ⟨rfl, rfl⟩

/-- C3 (witness): the amended behaviour on the concrete instance — the
collaborative result is adopted. -/
theorem single_model_fallback_spec_witness :
    (get_cached_recommendations [] 0 "u" 20).1 = none ∧
    ((db3.orderHistory "u").isEmpty && (db3.viewEvents "u").isEmpty) = false ∧
    (get_hybrid_recommendations st3 db3 "u" 20).length < 20 / 2 ∧
    (get_user_recommendations st3 db3 [] 0 "u" 20).1.method = "collaborative" := by
  have hund : (get_hybrid_recommendations st3 db3 "u" 20).length < 20 / 2 := by
    rw [st3_hyb20_len]
    norm_num
  refine ⟨rfl, rfl, hund, ?_⟩
  exact ((single_model_fallback_spec st3 db3 [] 0 "u" 20 rfl rfl hund).1
    (by rw [st3_cf20]; rfl)).2

/-- C8 (counterexample): a cold start over four products (sales totals
4 > 3 > 2 > 1) yields the scores [1, 7/8, 3/4, 5/8] — not the
[1.0, 0.833, 0.667, 0.5] of the claim's example, and the last score is not
0.5. -/
theorem db8_tops : get_top_selling_products db8.orderItems 4 = ["a", "b", "c", "d"] := by
  decide

theorem cold_start_scores_cex :
    (get_cold_start_recommendations db8 4).map (fun r => r.2.1) =
      [1, 7/8, 3/4, 5/8] ∧
    ¬ ((7/8 : ℚ) = 833/1000) ∧ ¬ ((7/8 : ℚ) = 5/6) ∧
    ¬ ((3/4 : ℚ) = 667/1000) ∧ ¬ ((3/4 : ℚ) = 2/3) ∧
    ¬ ((5/8 : ℚ) = 1/2) := by
  refine ⟨?_, by norm_num, by norm_num, by norm_num, by norm_num, by norm_num⟩
  simp only [get_cold_start_recommendations, db8_tops]
  norm_num [show List.enum ["a", "b", "c", "d"] = [(0, "a"), (1, "b"), (2, "c"), (3, "d")]
    from rfl]

/-- C8 (amended): the i-th of the returned popular items carries score
1 − (i / count) · 0.5 where count is the number of returned items, every
item is tagged `popular`, and the scores are strictly decreasing starting
at 1.0; the scale ends at 0.5 + 0.5/count, not at 0.5. -/
theorem cold_start_scores_spec (db : Db) (topK : Nat) :
    (∀ i, i < (get_cold_start_recommendations db topK).length →
      ((get_cold_start_recommendations db topK).getD i ("", 0, [])).2.1 =
        1 - ((i : ℚ) /
          ((get_top_selling_products db.orderItems topK).length : ℚ)) * (1/2) ∧
      ((get_cold_start_recommendations db topK).getD i ("", 0, [])).2.2 =
        ["popular"]) ∧
    List.Pairwise (fun a b : RecItem => b.2.1 < a.2.1)
      (get_cold_start_recommendations db topK) := by
  constructor
  · intro i hi
    rw [List.getD_eq_getElem _ _ hi, coldStart_getElem db topK i hi]
    exact ⟨rfl, rfl⟩
  · rw [List.pairwise_iff_getElem]
    intro i j hi hj hij
    rw [coldStart_getElem db topK i hi, coldStart_getElem db topK j hj]
    have hlen := coldStart_length_eq db topK
    have hn : (0 : ℚ) < ((get_top_selling_products db.orderItems topK).length : ℚ) := by
      have : 0 < (get_top_selling_products db.orderItems topK).length := by omega
      exact_mod_cast this
    have hij' : (i : ℚ) < (j : ℚ) := by exact_mod_cast hij
    have hdiv : (i : ℚ) / ((get_top_selling_products db.orderItems topK).length : ℚ) <
        (j : ℚ) / ((get_top_selling_products db.orderItems topK).length : ℚ) :=
      (div_lt_div_iff_of_pos_right hn).mpr hij'
    simp only
    linarith

/-- C8 (witness): the amended formula at the concrete instance — the
second of four items (index 1) scores 1 − (1/4)·0.5 = 7/8. -/
theorem cold_start_scores_spec_witness :
    1 < (get_cold_start_recommendations db8 4).length ∧
    ((get_cold_start_recommendations db8 4).getD 1 ("", 0, [])).2.1 =
      1 - ((1 : ℚ) / ((get_top_selling_products db8.orderItems 4).length : ℚ)) * (1/2) ∧
    ((get_cold_start_recommendations db8 4).getD 1 ("", 0, [])).2.2 = ["popular"] := by
  have hlen : 1 < (get_cold_start_recommendations db8 4).length := by
    rw [coldStart_length_eq, db8_tops]
    norm_num
  have h := (cold_start_scores_spec db8 4).1 1 hlen
  exact ⟨hlen, h.1, h.2⟩

/-- C4: for every terminal state of the per-request fallback chain —
cache hit, hybrid, single model, cold start, final popularity fallback —
the returned list holds at most `k` items with pairwise-distinct product
ids, and the cache invariant guaranteeing this for later cache hits is
preserved by the request. -/
theorem recommend_list_bounded (st : ModelState) (db : Db) (c : Cache) (now : ℚ)
    (u : String) (topK : Nat) (hk : 1 ≤ topK) (hinv : CacheInv c)
    (hp : ProductsOk st) :
    GoodList topK (get_user_recommendations st db c now u topK).1.items ∧
    CacheInv (get_user_recommendations st db c now u topK).2 := by
  cases hg : (get_cached_recommendations c now u topK).1 with
  | some l =>
    rw [user_recs_hit st db c now u topK l hg]
    obtain ⟨t, hget, _⟩ := get_cached_hit_entry c now u topK l hg
    have hmem := dictGet_mem hget
    have hgood := hinv _ hmem u topK rfl
    exact ⟨hgood, cacheInv_get c now u topK hinv⟩
  | none =>
    rw [user_recs_miss st db c now u topK hg]
    exact ⟨computeRecs_good st db u topK hk hp,
      cacheInv_set _ now u topK _ (cacheInv_get c now u topK hinv)
        (computeRecs_good st db u topK hk hp)⟩

/-- C4 (witness): concrete run from the empty cache. -/
theorem recommend_list_bounded_witness :
    1 ≤ 20 ∧ CacheInv ([] : Cache) ∧ ProductsOk st3 ∧
    GoodList 20 (get_user_recommendations st3 db3 [] 0 "u" 20).1.items := by
  have hinv : CacheInv ([] : Cache) := fun e he => absurd he (List.not_mem_nil e)
  have hp : ProductsOk st3 := by
    intro tf htf
    have h1 : st3.tfidf = some tf3 := rfl
    rw [h1] at htf
    rw [(Option.some.inj htf).symm]
    decide
  exact ⟨by norm_num, hinv, hp,
    (recommend_list_bounded st3 db3 [] 0 "u" 20 (by norm_num) hinv hp).1⟩

/-! Evaluation lemmas for the `st1`/`db1` instance. -/

theorem st1_cf10 : get_collaborative_recommendations st1 db1 "u" 10 =
    [("A", 8/10, ["cf"])] := rfl

theorem st1_cb10 : get_content_based_recommendations st1 db1 "u" 10 =
    [("A", 6/10, ["cb"])] := by
  norm_num [get_content_based_recommendations, st1, tf1, db1, argsortDesc, collectCB,
    show List.range 2 = [0, 1] from rfl, List.insertionSort, List.orderedInsert,
    List.findIdx?, List.dedup, List.pwFilter]
  split_ifs <;> simp_all

/-- C1: the hybrid blender. For each product in either scorer's output the
combined dict assigns `cf_score*w_cf` (collaborative only),
`cb_score*w_cb` (content only) or `cf_score*w_cf + cb_score*w_cb` (both);
a product in both lists has its reason set unioned and tagged `hybrid`;
every returned entry carries its combined-dict value; the result is
sorted descending by blended score and truncated to `k` (and no truncated
entry outscores a kept one). -/
theorem hybrid_blend_spec (st : ModelState) (db : Db) (u : String) (topK : Nat)
    (cfW cbW : ℚ) (hp : ProductsOk st) :
    (∀ p s1 r1,
      dictGet (get_collaborative_recommendations st db u (topK * 2)) p = some (s1, r1) →
      dictGet (get_content_based_recommendations st db u (topK * 2)) p = none →
      dictGet (hybridCombine (get_collaborative_recommendations st db u (topK * 2))
        (get_content_based_recommendations st db u (topK * 2)) cfW cbW) p =
        some (s1 * cfW, r1.dedup)) ∧
    (∀ p s2 r2,
      dictGet (get_collaborative_recommendations st db u (topK * 2)) p = none →
      dictGet (get_content_based_recommendations st db u (topK * 2)) p = some (s2, r2) →
      dictGet (hybridCombine (get_collaborative_recommendations st db u (topK * 2))
        (get_content_based_recommendations st db u (topK * 2)) cfW cbW) p =
        some (s2 * cbW, r2.dedup)) ∧
    (∀ p s1 r1 s2 r2,
      dictGet (get_collaborative_recommendations st db u (topK * 2)) p = some (s1, r1) →
      dictGet (get_content_based_recommendations st db u (topK * 2)) p = some (s2, r2) →
      ∃ rs,
        dictGet (hybridCombine (get_collaborative_recommendations st db u (topK * 2))
          (get_content_based_recommendations st db u (topK * 2)) cfW cbW) p =
          some (s1 * cfW + s2 * cbW, rs) ∧
        ∀ x, x ∈ rs ↔ x ∈ r1 ∨ x ∈ r2 ∨ x = "hybrid") ∧
    (∀ r ∈ get_hybrid_recommendations st db u topK cfW cbW,
      dictGet (hybridCombine (get_collaborative_recommendations st db u (topK * 2))
        (get_content_based_recommendations st db u (topK * 2)) cfW cbW) r.1 =
        some r.2) ∧
    List.Pairwise byScoreDesc (get_hybrid_recommendations st db u topK cfW cbW) ∧
    (get_hybrid_recommendations st db u topK cfW cbW).length =
      min topK (hybridCombine (get_collaborative_recommendations st db u (topK * 2))
        (get_content_based_recommendations st db u (topK * 2)) cfW cbW).length ∧
    (∀ e ∈ hybridCombine (get_collaborative_recommendations st db u (topK * 2))
        (get_content_based_recommendations st db u (topK * 2)) cfW cbW,
      e ∉ get_hybrid_recommendations st db u topK cfW cbW →
      ∀ e' ∈ get_hybrid_recommendations st db u topK cfW cbW, e.2.1 ≤ e'.2.1) := by
  have hcfn := cf_nodup st db u (topK * 2)
  have hcbn := cb_nodup st db u (topK * 2) hp
  have hkeys := hybridCombine_keys_nodup
    (get_collaborative_recommendations st db u (topK * 2))
    (get_content_based_recommendations st db u (topK * 2)) cfW cbW
  have hchar := hybridCombine_get
    (get_collaborative_recommendations st db u (topK * 2))
    (get_content_based_recommendations st db u (topK * 2)) cfW cbW hcfn hcbn
  refine ⟨?_, ?_, ?_, ?_, ?_, ?_, ?_⟩
  · intro p s1 r1 h1 h2
    rw [hchar p, h1, h2]
  · intro p s2 r2 h1 h2
    rw [hchar p, h1, h2]
  · intro p s1 r1 s2 r2 h1 h2
    refine ⟨setAdd (setUnion r1.dedup r2) "hybrid", ?_, ?_⟩
    · rw [hchar p, h1, h2]
    · intro x
      rw [mem_setAdd, mem_setUnion, List.mem_dedup]
      tauto
  · intro r hr
    rw [get_hybrid_recommendations] at hr
    have h1 : r ∈ List.insertionSort byScoreDesc
        (hybridCombine (get_collaborative_recommendations st db u (topK * 2))
          (get_content_based_recommendations st db u (topK * 2)) cfW cbW) :=
      List.mem_of_mem_take hr
    have h2 := (List.mem_insertionSort byScoreDesc).1 h1
    exact dictGet_of_mem_nodup hkeys h2
  · rw [get_hybrid_recommendations]
    exact List.Pairwise.sublist (List.take_sublist _ _)
      (List.sorted_insertionSort byScoreDesc _)
  · rw [get_hybrid_recommendations, List.length_take, List.length_insertionSort]
  · intro e he hnotin e' he'
    rw [get_hybrid_recommendations] at hnotin he'
    have hsorted := List.sorted_insertionSort byScoreDesc
      (hybridCombine (get_collaborative_recommendations st db u (topK * 2))
        (get_content_based_recommendations st db u (topK * 2)) cfW cbW)
    have hesort : e ∈ List.insertionSort byScoreDesc
        (hybridCombine (get_collaborative_recommendations st db u (topK * 2))
          (get_content_based_recommendations st db u (topK * 2)) cfW cbW) :=
      (List.mem_insertionSort byScoreDesc).2 he
    have hsplit2 : e ∈ (List.insertionSort byScoreDesc
        (hybridCombine (get_collaborative_recommendations st db u (topK * 2))
          (get_content_based_recommendations st db u (topK * 2)) cfW cbW)).take topK ++
        (List.insertionSort byScoreDesc
        (hybridCombine (get_collaborative_recommendations st db u (topK * 2))
          (get_content_based_recommendations st db u (topK * 2)) cfW cbW)).drop topK := by
      rw [List.take_append_drop]
      exact hesort
    rcases List.mem_append.1 hsplit2 with h | h
    · exact absurd h hnotin
    · exact pairwise_take_drop hsorted topK e' he' e h

/-- C1 (witness): with the default weights 0.7/0.3, product `A` scoring
0.8 collaboratively and 0.6 content-based gets blended score
0.8*0.7 + 0.6*0.3 = 0.74 in the combined dict. -/
theorem hybrid_blend_spec_witness :
    (74/100 : ℚ) = (8/10) * (7/10) + (6/10) * (3/10) ∧
    Option.map Prod.fst
      (dictGet (hybridCombine (get_collaborative_recommendations st1 db1 "u" (5 * 2))
        (get_content_based_recommendations st1 db1 "u" (5 * 2)) (7/10) (3/10)) "A") =
      some ((8/10) * (7/10) + (6/10) * (3/10)) := by
  have hp1 : ProductsOk st1 := by
    intro tf htf
    have h1 : st1.tfidf = some tf1 := rfl
    rw [h1] at htf
    rw [(Option.some.inj htf).symm]
    decide
  have h1 : dictGet (get_collaborative_recommendations st1 db1 "u" (5 * 2)) "A" =
      some (8/10, ["cf"]) := by
    rw [show (5 * 2) = 10 from rfl, st1_cf10]
    rfl
  have h2 : dictGet (get_content_based_recommendations st1 db1 "u" (5 * 2)) "A" =
      some (6/10, ["cb"]) := by
    rw [show (5 * 2) = 10 from rfl, st1_cb10]
    rfl
  obtain ⟨rs, hrs, _⟩ :=
    (hybrid_blend_spec st1 db1 "u" 5 (7/10) (3/10) hp1).2.2.1 "A" (8/10) ["cf"]
      (6/10) ["cb"] h1 h2
  refine ⟨by norm_num, ?_⟩
  rw [hrs]
  rfl

end AgriRec
